import Mathlib

/-!
Verification development for the codex-runner-service sync engine
(`app/slack_sync.py`, `app/main.py`).

Modelling conventions:
* Python strings are Lean `String`s (sequences of Unicode scalar values).
* Python `float` values are modelled as exact rationals (`ℚ`): every numeric
  conversion (`float(...)`) and every arithmetic comparison in the source is
  carried out on the exact decimal value instead of the nearest IEEE-754
  binary64.  This is stated on each definition it affects.  The claim that
  is specifically about passage through binary floating point is settled on
  a second, binary64-faithful embedding of the same source lines
  (definitions suffixed `_b64`), in which every `float(...)` conversion is
  composed with rounding to the nearest binary64 (`roundToBinary64`).
* Fallible Python code (exceptions) is modelled with `Except`/`Option`.
* The state file on disk is modelled as an optional string of contents
  (`none` = file does not exist) together with a flag recording whether the
  containing directory exists.
* Network effects (Slack fetch, GitHub issue creation) are modelled by
  passing the fetched pages in as data and returning the list of issue
  creation requests that were actually sent.
-/

namespace CodexRunner

/-! ## Python string semantics -/

/-- Code points treated as whitespace by Python `str.strip()`
(ASCII whitespace, the C1 separators, NEL, NBSP and the Unicode space
category). -/
def pySpaceCodes : List Nat :=
  [9, 10, 11, 12, 13, 28, 29, 30, 31, 32, 133, 160, 5760,
   8192, 8193, 8194, 8195, 8196, 8197, 8198, 8199, 8200, 8201, 8202,
   8232, 8233, 8239, 8287, 12288]

/-- Whether a character is Python whitespace. -/
def pyIsSpace (c : Char) : Bool := pySpaceCodes.contains c.toNat

/-- Python `str.strip()`: drop whitespace from both ends. -/
def pyStrip (s : String) : String :=
  String.mk (((s.data.dropWhile pyIsSpace).reverse.dropWhile pyIsSpace).reverse)

/-- Code points treated as line boundaries by Python `str.splitlines()`. -/
def pyIsLineBreak (c : Char) : Bool :=
  [10, 11, 12, 13, 28, 29, 30, 133, 8232, 8233].contains c.toNat

/-- Worker for `pySplitlines`; `acc` holds the current line reversed. -/
def pySplitlinesAux : List Char → List Char → List (List Char)
  | [], acc => if acc.isEmpty then [] else [acc.reverse]
  | '\r' :: '\n' :: rest, acc => acc.reverse :: pySplitlinesAux rest []
  | c :: rest, acc =>
    if pyIsLineBreak c then acc.reverse :: pySplitlinesAux rest []
    else pySplitlinesAux rest (c :: acc)

/-- Python `str.splitlines()`: in particular `"".splitlines() == []` and a
trailing line break does not produce a final empty line. -/
def pySplitlines (s : String) : List String :=
  (pySplitlinesAux s.data []).map String.mk

/-- Python `s.startswith(p)` (character-level prefix test). -/
def pyStartswith (s p : String) : Bool := p.data.isPrefixOf s.data

/-- Python `s[:n]` (first `n` characters). -/
def pyTake (s : String) (n : ℕ) : String := String.mk (s.data.take n)

/-! ## Python `float(...)` on decimal strings, modelled exactly

`pyFloat` parses the decimal literal grammar accepted by CPython `float()`
(optional sign, digits with an optional fractional part, optional decimal
exponent, surrounding whitespace) and returns the exact rational value of
the literal.  The IEEE-754 rounding to the nearest binary64 that CPython
performs afterwards is deliberately not modelled: markers stay exact
rationals.  Special literals (`inf`, `nan`) and digit-group underscores are
not modelled, as no claim involves them. -/

/-- Numeric value of a list of decimal digit characters, most significant
first (value of the empty list is 0). -/
def digitsVal (ds : List Char) : ℕ :=
  ds.foldl (fun a c => 10 * a + (c.toNat - 48)) 0

/-- Parse an optional exponent suffix (already past the `e`/`E`): an optional
sign followed by one or more digits, which must consume the rest. -/
def pyFloatExp (cs : List Char) : Option ℤ :=
  let sgn : ℤ := if cs.head? = some '-' then -1 else 1
  let cs1 := if cs.head? = some '-' ∨ cs.head? = some '+' then cs.tail else cs
  let ds := cs1.takeWhile Char.isDigit
  if ds.isEmpty then none
  else if (cs1.drop ds.length).isEmpty then some (sgn * (digitsVal ds : ℤ))
  else none

/-- Core of `pyFloat`, after whitespace stripping. -/
def pyFloatCore (cs : List Char) : Option ℚ :=
  let sgn : ℚ := if cs.head? = some '-' then -1 else 1
  let cs0 := if cs.head? = some '-' ∨ cs.head? = some '+' then cs.tail else cs
  let intPart := cs0.takeWhile Char.isDigit
  let cs1 := cs0.drop intPart.length
  let fracPart := if cs1.head? = some '.' then cs1.tail.takeWhile Char.isDigit else []
  let cs2 := if cs1.head? = some '.' then cs1.tail.drop fracPart.length else cs1
  if intPart.isEmpty ∧ fracPart.isEmpty then none
  else
    let mantissa : ℚ :=
      (digitsVal intPart : ℚ) + (digitsVal fracPart : ℚ) / (10 : ℚ) ^ fracPart.length
    if cs2.isEmpty then some (sgn * mantissa)
    else if cs2.head? = some 'e' ∨ cs2.head? = some 'E' then
      match pyFloatExp cs2.tail with
      | some e => some (sgn * mantissa * (10 : ℚ) ^ e)
      | none => none
    else none

/-- Python `float(s)` on a finite decimal literal, as an exact rational. -/
def pyFloat (s : String) : Option ℚ :=
  pyFloatCore (pyStrip s).data

/-! ## Decimal rendering: Python `f"{x:.6f}"` on the exact-rational model -/

/-- Decimal digit character for a value below 10. -/
def digitChar (n : ℕ) : Char := Char.ofNat (48 + n)

/-- Digits of `n` in base 10, most significant first, prepended to `acc`.
`fuel` bounds the recursion depth (any `fuel > n` is enough) and keeps the
recursion structural so that it evaluates definitionally. -/
def natToDecimalAux : ℕ → ℕ → List Char → List Char
  | 0, _, acc => acc
  | fuel + 1, n, acc =>
    if n < 10 then digitChar n :: acc
    else natToDecimalAux fuel (n / 10) (digitChar (n % 10) :: acc)

/-- Decimal digit string of a natural number (`"0"` for 0). -/
def natToDecimal (n : ℕ) : List Char := natToDecimalAux (n + 1) n []

/-- Left-pad a digit list with `'0'` up to width `k`. -/
def padZeros (k : ℕ) (ds : List Char) : List Char :=
  List.replicate (k - ds.length) '0' ++ ds

/-- Round a rational to the nearest integer, ties to even (the rounding used
by C `printf("%.6f", ...)` and hence by Python's fixed-point formatting). -/
def roundHalfEvenInt (q : ℚ) : ℤ :=
  if q - (⌊q⌋ : ℚ) < 1 / 2 then ⌊q⌋
  else if 1 / 2 < q - (⌊q⌋ : ℚ) then ⌊q⌋ + 1
  else if ⌊q⌋ % 2 = 0 then ⌊q⌋ else ⌊q⌋ + 1

/-- Python `f"{q:.6f}"` on the exact-rational model of the float `q`:
round to six fractional digits (ties to even) and print with exactly six
digits after the decimal point. -/
def formatFixed6 (q : ℚ) : String :=
  let n := roundHalfEvenInt (q * 1000000)
  let sign : List Char := if n < 0 ∨ (n = 0 ∧ q < 0) then ['-'] else []
  let a := n.natAbs
  String.mk (sign ++ natToDecimal (a / 1000000) ++ '.' :: padZeros 6 (natToDecimal (a % 1000000)))

/-! ## `time.strftime("%Y-%m-%d %H:%M:%S", time.gmtime(ts))` -/

/-- Convert a count of days since 1970-01-01 to a Gregorian
(year, month, day), following the standard civil-from-days algorithm with
truncating integer division, as C and Python `gmtime` compute it. -/
def civilFromDays (z0 : ℤ) : ℤ × ℤ × ℤ :=
  let z := z0 + 719468
  let era := (if 0 ≤ z then z else z - 146096) / 146097
  let doe := z - era * 146097
  let yoe := (doe - doe / 1460 + doe / 36524 - doe / 146096) / 365
  let y := yoe + era * 400
  let doy := doe - (365 * yoe + yoe / 4 - yoe / 100)
  let mp := (5 * doy + 2) / 153
  let d := doy - (153 * mp + 2) / 5 + 1
  let mo := mp + (if mp < 10 then 3 else -9)
  (y + (if mo ≤ 2 then 1 else 0), mo, d)

/-- Zero-padded decimal rendering of a nonnegative integer, width `w`. -/
def padNum (w : ℕ) (n : ℤ) : List Char := padZeros w (natToDecimal n.natAbs)

/-- The body of `time.strftime("%Y-%m-%d %H:%M:%S", time.gmtime(q))` for the
exact-rational model `q` of the timestamp float: seconds are floored, then
split into UTC calendar fields. -/
def humanTime (q : ℚ) : String :=
  let t : ℤ := ⌊q⌋
  let days := Int.fdiv t 86400
  let sod := t - 86400 * days
  let ymd := civilFromDays days
  String.mk (padNum 4 ymd.1 ++ '-' :: padNum 2 ymd.2.1 ++ '-' :: padNum 2 ymd.2.2
    ++ ' ' :: padNum 2 (sod / 3600) ++ ':' :: padNum 2 (sod % 3600 / 60)
    ++ ':' :: padNum 2 (sod % 60))

/-! ## JSON serialization of the cursor state

`_save_state` writes `json.dumps(state, ensure_ascii=False, indent=2)` and
`_load_state` reads it back with `json.loads`.  The state dictionary the
engine itself writes only ever maps string keys to string values, so the
encoder is modelled on such dictionaries only; the decoder (`json_loads`)
however must accept whatever `json.loads` accepts, since the file contents
are arbitrary, so it parses full JSON documents (objects, arrays, strings,
numbers, booleans, `null`, with nesting) into the `PyValue` type below.
Two documented deviations, both outside the rational embedding: escaped
lone UTF-16 surrogates (which Lean characters cannot represent) are
rejected, and the non-finite constants `Infinity`/`-Infinity`/`NaN` (which
CPython accepts by default, producing non-finite floats with no rational
counterpart) are rejected.  JSON reals are taken at their exact decimal
value, per the module convention. -/

/-- Opening curly brace character. -/
def lbraceChar : Char := Char.ofNat 123

/-- Closing curly brace character. -/
def rbraceChar : Char := Char.ofNat 125

/-- Lowercase hexadecimal digit character for a value below 16. -/
def hexDigitChar (n : ℕ) : Char :=
  if n < 10 then Char.ofNat (48 + n) else Char.ofNat (87 + n)

/-- Escaping of one character by the CPython JSON encoder with
`ensure_ascii=False`: the two JSON metacharacters and the named control
characters get two-character escapes, remaining control characters get
`\u00xx`, everything else is emitted literally. -/
def jsonEscapeChar (c : Char) : List Char :=
  if c = '"' then ['\\', '"']
  else if c = '\\' then ['\\', '\\']
  else if c = '\n' then ['\\', 'n']
  else if c = '\t' then ['\\', 't']
  else if c = '\r' then ['\\', 'r']
  else if c.toNat = 8 then ['\\', 'b']
  else if c.toNat = 12 then ['\\', 'f']
  else if c.toNat < 32 then
    ['\\', 'u', '0', '0', hexDigitChar (c.toNat / 16), hexDigitChar (c.toNat % 16)]
  else [c]

/-- Escape a whole character list. -/
def jsonEscape : List Char → List Char
  | [] => []
  | c :: rest => jsonEscapeChar c ++ jsonEscape rest

/-- One `  "key": "value"` member line of the `indent=2` output. -/
def jsonEncodePairChars (k v : String) : List Char :=
  ' ' :: ' ' :: '"' :: (jsonEscape k.data ++ '"' :: ':' :: ' ' :: '"' :: (jsonEscape v.data ++ ['"']))

/-- Interleave a separator between the member lines. -/
def joinSep : List (List Char) → List Char → List Char
  | [], _ => []
  | [x], _ => x
  | x :: y :: rest, sep => x ++ sep ++ joinSep (y :: rest) sep

/-- `json.dumps(d, ensure_ascii=False, indent=2)` for a flat string-valued
dictionary `d` (given as key/value pairs in insertion order). -/
def json_dumps_indent2 (d : List (String × String)) : String :=
  match d with
  | [] => String.mk [lbraceChar, rbraceChar]
  | _ => String.mk (lbraceChar :: '\n' ::
      (joinSep (d.map (fun p => jsonEncodePairChars p.1 p.2)) [',', '\n'] ++ ['\n', rbraceChar]))

/-- JSON inter-token whitespace. -/
def jsonIsWs (c : Char) : Bool := [32, 9, 10, 13].contains c.toNat

/-- Skip inter-token whitespace. -/
def skipWs (cs : List Char) : List Char := cs.dropWhile jsonIsWs

/-- Value of one hexadecimal digit character. -/
def hexVal (c : Char) : Option ℕ :=
  if '0' ≤ c ∧ c ≤ '9' then some (c.toNat - 48)
  else if 'a' ≤ c ∧ c ≤ 'f' then some (c.toNat - 87)
  else if 'A' ≤ c ∧ c ≤ 'F' then some (c.toNat - 55)
  else none

/-- Parse the body of a JSON string (after the opening quote) up to and
including the closing quote, returning the decoded characters and the rest
of the input.  Raw control characters are rejected (strict mode), escape
sequences are decoded, `\uXXXX` values that are not Unicode scalar values
are rejected. -/
def parseJStringBody : List Char → Option (List Char × List Char)
  | [] => none
  | c :: rest =>
    if c = '"' then some ([], rest)
    else if c = '\\' then
      match rest with
      | [] => none
      | e :: rest2 =>
        if e = '"' then (parseJStringBody rest2).map (fun p => ('"' :: p.1, p.2))
        else if e = '\\' then (parseJStringBody rest2).map (fun p => ('\\' :: p.1, p.2))
        else if e = '/' then (parseJStringBody rest2).map (fun p => ('/' :: p.1, p.2))
        else if e = 'b' then (parseJStringBody rest2).map (fun p => (Char.ofNat 8 :: p.1, p.2))
        else if e = 'f' then (parseJStringBody rest2).map (fun p => (Char.ofNat 12 :: p.1, p.2))
        else if e = 'n' then (parseJStringBody rest2).map (fun p => ('\n' :: p.1, p.2))
        else if e = 'r' then (parseJStringBody rest2).map (fun p => ('\r' :: p.1, p.2))
        else if e = 't' then (parseJStringBody rest2).map (fun p => ('\t' :: p.1, p.2))
        else if e = 'u' then
          match rest2 with
          | h1 :: h2 :: h3 :: h4 :: rest3 =>
            match hexVal h1, hexVal h2, hexVal h3, hexVal h4 with
            | some a, some b, some g, some d =>
              let n := 4096 * a + 256 * b + 16 * g + d
              if n < 55296 ∨ 57343 < n then
                (parseJStringBody rest3).map (fun p => (Char.ofNat n :: p.1, p.2))
              else none
            | _, _, _, _ => none
          | _ => none
        else none
    else if c.toNat < 32 then none
    else (parseJStringBody rest).map (fun p => (c :: p.1, p.2))

/-- Parse a JSON string token including its opening quote. -/
def parseJStringTok (cs : List Char) : Option (String × List Char) :=
  match cs with
  | c :: rest =>
    if c = '"' then (parseJStringBody rest).map (fun p => (String.mk p.1, p.2))
    else none
  | [] => none

/-- A Python value as produced by `json.loads`: JSON strings, integers
(JSON numbers with neither fraction nor exponent become Python `int`),
reals (Python `float`, modelled by its exact decimal value), booleans,
`null` (Python `None`), arrays (Python `list`) and objects (Python `dict`
with string keys, in insertion order). -/
inductive PyValue where
  | str (s : String)
  | int (n : ℤ)
  | float (q : ℚ)
  | bool (b : Bool)
  | null
  | list (xs : List PyValue)
  | dict (kvs : List (String × PyValue))

/-- Python dict insertion: overwriting an existing key keeps its position,
a new key is appended (so duplicate JSON keys resolve to the last value). -/
def dictSet {α : Type} (d : List (String × α)) (k : String) (v : α) :
    List (String × α) :=
  if (d.lookup k).isSome then d.map (fun p => if p.1 = k then (k, v) else p)
  else d ++ [(k, v)]

/-- Parse the exponent part of a JSON number (input just past the `e`/`E`):
an optional sign followed by one or more digits. -/
def parseJNumExp (cs : List Char) : Option (ℤ × List Char) :=
  let sgn : ℤ := if cs.head? = some '-' then -1 else 1
  let cs1 := if cs.head? = some '-' ∨ cs.head? = some '+' then cs.tail else cs
  let ds := cs1.takeWhile Char.isDigit
  if ds.isEmpty then none
  else some (sgn * (digitsVal ds : ℤ), cs1.drop ds.length)

/-- Parse a JSON number token per the RFC 8259 grammar CPython's scanner
matches (`-? (0 | [1-9][0-9]*) (. [0-9]+)? ([eE][-+]?[0-9]+)?`): an
integer-only match yields a Python `int`, any match with a fraction or
exponent yields a Python `float` (exact decimal value, module convention).
Where CPython's regex would match a shorter literal and leave a remainder
beginning with a digit, `.`, or `e`/`E` (a multi-digit leading zero, a dot
with no digits, a malformed exponent), this parser returns `none` directly:
no such remainder can continue any JSON document, so the document-level
verdict is identical. -/
def parseJNumber (cs : List Char) : Option (PyValue × List Char) :=
  let neg := cs.head? = some '-'
  let cs0 := if neg then cs.tail else cs
  let intDs := cs0.takeWhile Char.isDigit
  if intDs.isEmpty then none
  else if 2 ≤ intDs.length ∧ intDs.head? = some '0' then none
  else
    let cs1 := cs0.drop intDs.length
    let fracDs := if cs1.head? = some '.' then cs1.tail.takeWhile Char.isDigit else []
    if cs1.head? = some '.' ∧ fracDs.isEmpty then none
    else
      let cs2 := if cs1.head? = some '.' then cs1.tail.drop fracDs.length else cs1
      let sgnQ : ℚ := if neg then -1 else 1
      let mant : ℚ :=
        (digitsVal intDs : ℚ) + (digitsVal fracDs : ℚ) / (10 : ℚ) ^ fracDs.length
      if cs2.head? = some 'e' ∨ cs2.head? = some 'E' then
        match parseJNumExp cs2.tail with
        | none => none
        | some (ex, cs3) => some (.float (sgnQ * mant * (10 : ℚ) ^ ex), cs3)
      else if fracDs.isEmpty then
        some (.int ((if neg then -1 else 1) * (digitsVal intDs : ℤ)), cs2)
      else some (.float (sgnQ * mant), cs2)

/-- Parser mode: a value, the members of an object (accumulated so far), or
the elements of an array (accumulated so far). -/
inductive JMode where
  | value
  | members (acc : List (String × PyValue))
  | elems (acc : List PyValue)

/-- Recursive JSON document parser (one function over the three modes so the
recursion is structural on `fuel` and evaluates definitionally).  Each
recursive call decreases `fuel` by one; entering an array element costs two
fuel per consumed `[`, so `fuel = 2·length + 2` always suffices for a
document the grammar accepts. -/
def parseJ : ℕ → JMode → List Char → Option (PyValue × List Char)
  | 0, _, _ => none
  | fuel + 1, .value, cs =>
    match skipWs cs with
    | [] => none
    | c :: rest =>
      if c = '"' then
        (parseJStringBody rest).map (fun p => (PyValue.str (String.mk p.1), p.2))
      else if c = lbraceChar then
        match skipWs rest with
        | d :: rest1 =>
          if d = rbraceChar then some (.dict [], rest1)
          else parseJ fuel (.members []) rest
        | [] => none
      else if c = '[' then
        match skipWs rest with
        | d :: rest1 =>
          if d = ']' then some (.list [], rest1)
          else parseJ fuel (.elems []) rest
        | [] => none
      else if c = 't' then
        match rest with
        | 'r' :: 'u' :: 'e' :: r => some (.bool true, r)
        | _ => none
      else if c = 'f' then
        match rest with
        | 'a' :: 'l' :: 's' :: 'e' :: r => some (.bool false, r)
        | _ => none
      else if c = 'n' then
        match rest with
        | 'u' :: 'l' :: 'l' :: r => some (.null, r)
        | _ => none
      else parseJNumber (c :: rest)
  | fuel + 1, .members acc, cs =>
    match parseJStringTok (skipWs cs) with
    | none => none
    | some (k, cs1) =>
      match skipWs cs1 with
      | c :: cs2 =>
        if c = ':' then
          match parseJ fuel .value cs2 with
          | none => none
          | some (v, cs3) =>
            match skipWs cs3 with
            | c2 :: cs4 =>
              if c2 = ',' then parseJ fuel (.members (dictSet acc k v)) cs4
              else if c2 = rbraceChar then some (.dict (dictSet acc k v), cs4)
              else none
            | [] => none
        else none
      | [] => none
  | fuel + 1, .elems acc, cs =>
    match parseJ fuel .value cs with
    | none => none
    | some (v, cs1) =>
      match skipWs cs1 with
      | c :: cs2 =>
        if c = ',' then parseJ fuel (.elems (acc ++ [v])) cs2
        else if c = ']' then some (.list (acc ++ [v]), cs2)
        else none
      | [] => none

/-- `json.loads`: parse one JSON document with arbitrary surrounding
whitespace; anything else (including trailing data) is unparsable
(`none`). -/
def json_loads (s : String) : Option PyValue :=
  match parseJ (2 * s.data.length + 2) .value s.data with
  | some (v, rest) => if (skipWs rest).isEmpty then some v else none
  | none => none

/-- Python `float(x)` applied to a loaded JSON value: strings are parsed as
decimal literals, numbers are numeric already (`bool` is an `int` subclass,
`float(True) == 1.0`), and `None`, lists and dicts raise `TypeError`
(modelled as `none`, like any failed conversion). -/
def pyFloatValue : PyValue → Option ℚ
  | .str s => pyFloat s
  | .int n => some (n : ℚ)
  | .float q => some q
  | .bool b => some (if b then 1 else 0)
  | _ => none

/-! ## Data model of `app/slack_sync.py` -/

/-- A Slack message as consumed by the sync engine: the four dictionary fields it
reads, each optional because `message.get(...)` is used throughout.  The
timestamp is kept as the string Slack delivers; numeric uses go through
`pyFloat`. -/
structure Message where
  ts : Option String
  text : Option String
  user : Option String
  subtype : Option String
deriving DecidableEq, Repr

/-- Python truthiness of `message.get("subtype")` for a string-valued field:
present and non-empty. -/
def pyTruthy : Option String → Bool
  | none => false
  | some s => s ≠ ""

/-- The configuration fields `run_sync` reads (from `app/config.py`). -/
structure Settings where
  slack_bot_token : String
  slack_channel_id : String
  github_repo : String
  github_token : String
deriving Repr

/-- The state file on disk: whether its parent directory exists, and the
file contents (`none` = no file). -/
structure FsState where
  dirExists : Bool
  contents : Option String
deriving DecidableEq, Repr

/-- Exceptions the engine can raise:
`storageCorrupt` = `json.loads` failure in `_load_state`,
`attributeError` = `state.get(...)` on a loaded document that is not a dict,
`valueError` = a failed `float(...)` conversion (`ValueError` on strings,
`TypeError` on non-numeric objects),
`indexError` = the `splitlines()[0]` failure in `_format_issue`,
`sinkRejected` = GitHub issue creation failed. -/
inductive SyncError where
  | storageCorrupt
  | attributeError
  | valueError
  | indexError
  | sinkRejected
deriving DecidableEq, Repr

/-- Exceptions `_format_issue` can raise. -/
inductive FormatErr where
  | valueError
  | indexError
deriving DecidableEq, Repr

/-- Lift a formatter exception into the pass-level exception type. -/
def liftFormatErr : FormatErr → SyncError
  | .valueError => .valueError
  | .indexError => .indexError

/-- One issue-creation request sent to the tracker backend. -/
structure CreatedIssue where
  repo : String
  title : String
  body : String
  labels : List String
deriving DecidableEq, Repr

/-- The statistics record returned by a successful pass (timestamps as exact
rationals, see the module header). -/
structure SlackSyncStats where
  processed_messages : ℕ
  created_issues : ℕ
  last_timestamp : ℚ
deriving DecidableEq, Repr

/-! ## The functions of `app/slack_sync.py` -/

/-- `_load_state`: a missing file yields the zero cursor `{"last_ts": "0"}`;
otherwise the contents are parsed with `json.loads` — whatever document they
hold — and unparsable contents raise (no fallback). -/
def _load_state (fs : FsState) : Except SyncError PyValue :=
  match fs.contents with
  | none => .ok (.dict [("last_ts", .str "0")])
  | some text =>
    match json_loads text with
    | none => .error .storageCorrupt
    | some v => .ok v

/-- `_save_state`: create the parent directory if needed
(`path.parent.mkdir(parents=True, exist_ok=True)`) and write the serialized
state plus a trailing newline with `path.write_text` (a plain truncating
write, not a write-then-rename). -/
def _save_state (_fs : FsState) (state : List (String × String)) : FsState :=
  { dirExists := true, contents := some (json_dumps_indent2 state ++ "\n") }

/-- Observable contents of the state file if the process crashes during
`_save_state`: `path.write_text` opens the file for truncating write and
writes sequentially, so before the write begins the old contents are still
observable, and afterwards every prefix of the new contents (including the
empty file right after truncation) is a possible crash state. -/
def saveCrashStates (fs : FsState) (state : List (String × String)) : List (Option String) :=
  let saved := (json_dumps_indent2 state ++ "\n").data
  fs.contents :: (List.range (saved.length + 1)).map (fun k => some (String.mk (saved.take k)))

/-- The marker key of a message: `float(item.get("ts", "0"))` on the
exact-rational model. -/
def keyOf (m : Message) : Option ℚ := pyFloat (m.ts.getD "0")

/-- Sort relation of `messages.sort(key=lambda item: float(item.get("ts", "0")))`:
compare by marker key. -/
def keyLe (a b : ℚ × Message) : Prop := a.1 ≤ b.1

instance : DecidableRel keyLe := fun a b => inferInstanceAs (Decidable (a.1 ≤ b.1))

instance : IsTotal (ℚ × Message) keyLe := ⟨fun a b => le_total a.1 b.1⟩

instance : IsTrans (ℚ × Message) keyLe := ⟨fun _ _ _ h1 h2 => le_trans h1 h2⟩

/-- Pair every message with its parsed marker key; `none` if any
`float(...)` conversion raises. -/
def keyedOf (l : List Message) : Option (List (ℚ × Message)) :=
  l.mapM (fun m => (keyOf m).map (fun q => (q, m)))

/-- `_fetch_new_messages`, success path: the pagination loop accumulates the
pages in order (`messages.extend(...)` until no continuation token), then
sorts by marker and keeps only messages strictly newer than `oldest`.
`pages` is the data the backend returned; transport failures abort the whole
call in the source and are outside this function's input.  The sort models
Python's stable `list.sort(key=...)` with a stable insertion sort, which
computes the same list (the stably sorted permutation is unique). -/
def _fetch_new_messages_obj (pages : List (List Message)) (oldest : PyValue) :
    Except SyncError (List Message) :=
  let messages := pages.flatten
  match keyedOf messages, pyFloatValue oldest with
  | some keyed, some oldestVal =>
    .ok (((keyed.insertionSort keyLe).filter (fun p => decide (oldestVal < p.1))).map Prod.snd)
  | _, _ => .error .valueError

/-- `_fetch_new_messages` at a string cursor marker — the form every marker
the engine itself persists takes, and the form the fetch contract (C7) is
stated on. -/
def _fetch_new_messages (pages : List (List Message)) (oldest : String) :
    Except SyncError (List Message) :=
  _fetch_new_messages_obj pages (.str oldest)

/-- `_format_issue`: strip the text, read author and timestamp with
defaults, render the UTC time and the deep link, take the first line of the
text truncated to 80 characters as the title (with the fixed fallback for an
empty result — unreachable, see the `[]` branch, because
`"".splitlines()` is empty and indexing it raises `IndexError`), and build
the templated body. -/
def _format_issue (message : Message) (channel : String) :
    Except FormatErr (String × String) :=
  let text := pyStrip (message.text.getD "")
  let user := message.user.getD "unknown"
  let ts := message.ts.getD "0"
  match pyFloat ts with
  | none => .error .valueError
  | some ts_float =>
    let human_time := humanTime ts_float
    let link := "https://slack.com/app_redirect?channel=" ++ channel ++ "&message_ts=" ++ ts
    match pySplitlines text with
    | [] => .error .indexError
    | first :: _ =>
      let title := if pyTake first 80 = "" then "Slack Codex Request" else pyTake first 80
      let body := "### Slackリクエスト\n- 投稿者: `" ++ user ++ "`\n- 投稿日時 (UTC): "
        ++ human_time ++ "\n- メッセージリンク: " ++ link ++ "\n\n````\n" ++ text ++ "\n````\n"
      .ok (title, body)

/-- `_create_issue`: the issue-creation request POSTed to the tracker.
Whether the backend accepts it is supplied per attempt by the engine's
sink-outcome parameter. -/
def _create_issue (repo : String) (_token : String) (title body : String)
    (labels : List String) : CreatedIssue :=
  ⟨repo, title, body, labels⟩

/-- The loop accumulator of `run_sync`: `created` and `processed_ts`. -/
structure LoopAcc where
  created : ℕ
  processed_ts : ℚ
deriving DecidableEq, Repr

/-- The message loop of `run_sync` (lines 113-122): skip messages with a
truthy `subtype`, skip messages whose stripped text does not start with
`"/codex"`, otherwise format, create the issue (the outcome of the n-th
creation attempt is `sinkOk n`; a rejected creation raises), bump `created`
and advance `processed_ts`.  Returns the issues durably created (even when
the pass then fails) alongside the final accumulator or the exception. -/
def syncLoop (settings : Settings) (sinkOk : ℕ → Bool) :
    List Message → LoopAcc → List CreatedIssue × Except SyncError LoopAcc
  | [], acc => ([], .ok acc)
  | message :: rest, acc =>
    if pyTruthy message.subtype then syncLoop settings sinkOk rest acc
    else
      let text := pyStrip (message.text.getD "")
      if ¬ pyStartswith text "/codex" then syncLoop settings sinkOk rest acc
      else
        match _format_issue message settings.slack_channel_id with
        | .error e => ([], .error (liftFormatErr e))
        | .ok (title, body) =>
          if sinkOk acc.created then
            let issue := _create_issue settings.github_repo settings.github_token title body
              ["codex-runner", "from-slack"]
            let tsv : Except SyncError ℚ :=
              match message.ts with
              | none => .ok acc.processed_ts
              | some s =>
                match pyFloat s with
                | none => .error .valueError
                | some q => .ok q
            match tsv with
            | .error e => ([issue], .error e)
            | .ok q =>
              let next := syncLoop settings sinkOk rest ⟨acc.created + 1, max acc.processed_ts q⟩
              (issue :: next.1, next.2)
          else ([], .error .sinkRejected)

/-- The full observable outcome of one `run_sync` call: issue-creation
requests actually sent, the state file afterwards, the state dictionary
passed to `_save_state` (if it was called at all), and the returned
statistics or the exception that aborted the pass. -/
structure RunOutput where
  issues : List CreatedIssue
  fs : FsState
  savedState : Option (List (String × String))
  result : Except SyncError SlackSyncStats
deriving Repr

/-- `run_sync` (lines 105-128): load the cursor document, read the marker
with `state.get("last_ts", "0")` (an `AttributeError` if the loaded
document is not a dict), fetch messages newer than the marker, run the
message loop from `processed_ts = float(oldest)`, and persist
`{"last_ts": f"{processed_ts:.6f}"}` only when at least one issue was
created. -/
def run_sync (settings : Settings) (fs : FsState) (pages : List (List Message))
    (sinkOk : ℕ → Bool) : RunOutput :=
  match _load_state fs with
  | .error e => ⟨[], fs, none, .error e⟩
  | .ok state =>
    match state with
    | .dict kvs =>
      let oldest := (kvs.lookup "last_ts").getD (.str "0")
      match _fetch_new_messages_obj pages oldest with
      | .error e => ⟨[], fs, none, .error e⟩
      | .ok messages =>
        match pyFloatValue oldest with
        | none => ⟨[], fs, none, .error .valueError⟩
        | some oldestVal =>
          let lp := syncLoop settings sinkOk messages ⟨0, oldestVal⟩
          match lp.2 with
          | .error e => ⟨lp.1, fs, none, .error e⟩
          | .ok acc =>
            if 0 < acc.created then
              let newState := [("last_ts", formatFixed6 acc.processed_ts)]
              ⟨lp.1, _save_state fs newState, some newState,
                .ok ⟨messages.length, acc.created, acc.processed_ts⟩⟩
            else
              ⟨lp.1, fs, none, .ok ⟨messages.length, acc.created, acc.processed_ts⟩⟩
    | _ => ⟨[], fs, none, .error .attributeError⟩

/-! ## The binary64-faithful embedding of the same pipeline

The module convention models `float(...)` as the exact rational value of
the parsed literal.  The claim about passage through binary floating point
is stated over a second embedding of the very same source lines, identical
definition for definition except that every `float(...)` conversion is
composed with `roundToBinary64` — rounding to the nearest IEEE-754 binary64
value, which is what CPython's `float` actually stores.  Definitions of
this embedding carry the suffix `_b64`. -/

/-- `⌊log₂ n⌋` for a natural number (`0` for `n ≤ 1`).  `fuel`-structured so
it evaluates definitionally; `fuel = n` always suffices since the argument
at least halves each step. -/
def natLog2Aux : ℕ → ℕ → ℕ
  | 0, _ => 0
  | fuel + 1, n => if n < 2 then 0 else natLog2Aux fuel (n / 2) + 1

/-- `⌊log₂ n⌋` of a natural number. -/
def natLog2 (n : ℕ) : ℕ := natLog2Aux n n

/-- `⌈log₂ n⌉`: the least `k` with `n ≤ 2 ^ k` (`0` for `n ≤ 1`). -/
def natClog2Aux : ℕ → ℕ → ℕ
  | 0, _ => 0
  | fuel + 1, n => if n ≤ 1 then 0 else natClog2Aux fuel ((n + 1) / 2) + 1

/-- `⌈log₂ n⌉` of a natural number. -/
def natClog2 (n : ℕ) : ℕ := natClog2Aux n n

/-- `⌊log₂ q⌋` for a positive rational (junk value for `q ≤ 0`): for
`q ≥ 1` the floor logarithm of `⌊q⌋`, for `0 < q < 1` the negated ceiling
logarithm of `⌈q⁻¹⌉`. -/
def ratLog2 (q : ℚ) : ℤ :=
  if 1 ≤ q then (natLog2 ⌊q⌋.toNat : ℤ) else -(natClog2 ⌈q⁻¹⌉.toNat : ℤ)

/-- Round a rational to the nearest IEEE-754 binary64 value, returned as an
exact rational: pick the binade of `|q|`, so that the 53-bit significand
grid for that binade has spacing `2 ^ e`, round `q` onto that grid with
round-to-nearest ties-to-even, with the grid spacing floored at the
subnormal spacing `2 ^ (-1074)`.  The exponent is not clamped above:
overflow to infinity has no rational counterpart and lies far outside the
timestamp range of every claim. -/
def roundToBinary64 (q : ℚ) : ℚ :=
  if q = 0 then 0
  else
    let e : ℤ := max (ratLog2 |q| - 52) (-1074)
    (roundHalfEvenInt (q * (2 : ℚ) ^ (-e)) : ℚ) * (2 : ℚ) ^ e

/-- Python `float(s)` modelled faithfully through binary floating point:
parse the decimal literal, then round to the nearest binary64. -/
def pyFloat64 (s : String) : Option ℚ :=
  (pyFloat s).map roundToBinary64

/-- Python `float(x)` on a loaded JSON value, through binary floating
point. -/
def pyFloatValue64 (v : PyValue) : Option ℚ :=
  (pyFloatValue v).map roundToBinary64

/-- `keyOf` of the binary64 embedding. -/
def keyOf64 (m : Message) : Option ℚ := pyFloat64 (m.ts.getD "0")

/-- `keyedOf` of the binary64 embedding. -/
def keyedOf64 (l : List Message) : Option (List (ℚ × Message)) :=
  l.mapM (fun m => (keyOf64 m).map (fun q => (q, m)))

/-- `_fetch_new_messages` of the binary64 embedding. -/
def _fetch_new_messages_b64 (pages : List (List Message)) (oldest : PyValue) :
    Except SyncError (List Message) :=
  let messages := pages.flatten
  match keyedOf64 messages, pyFloatValue64 oldest with
  | some keyed, some oldestVal =>
    .ok (((keyed.insertionSort keyLe).filter (fun p => decide (oldestVal < p.1))).map Prod.snd)
  | _, _ => .error .valueError

/-- `_format_issue` of the binary64 embedding. -/
def _format_issue_b64 (message : Message) (channel : String) :
    Except FormatErr (String × String) :=
  let text := pyStrip (message.text.getD "")
  let user := message.user.getD "unknown"
  let ts := message.ts.getD "0"
  match pyFloat64 ts with
  | none => .error .valueError
  | some ts_float =>
    let human_time := humanTime ts_float
    let link := "https://slack.com/app_redirect?channel=" ++ channel ++ "&message_ts=" ++ ts
    match pySplitlines text with
    | [] => .error .indexError
    | first :: _ =>
      let title := if pyTake first 80 = "" then "Slack Codex Request" else pyTake first 80
      let body := "### Slackリクエスト\n- 投稿者: `" ++ user ++ "`\n- 投稿日時 (UTC): "
        ++ human_time ++ "\n- メッセージリンク: " ++ link ++ "\n\n````\n" ++ text ++ "\n````\n"
      .ok (title, body)

/-- The message loop of `run_sync` in the binary64 embedding. -/
def syncLoop_b64 (settings : Settings) (sinkOk : ℕ → Bool) :
    List Message → LoopAcc → List CreatedIssue × Except SyncError LoopAcc
  | [], acc => ([], .ok acc)
  | message :: rest, acc =>
    if pyTruthy message.subtype then syncLoop_b64 settings sinkOk rest acc
    else
      let text := pyStrip (message.text.getD "")
      if ¬ pyStartswith text "/codex" then syncLoop_b64 settings sinkOk rest acc
      else
        match _format_issue_b64 message settings.slack_channel_id with
        | .error e => ([], .error (liftFormatErr e))
        | .ok (title, body) =>
          if sinkOk acc.created then
            let issue := _create_issue settings.github_repo settings.github_token title body
              ["codex-runner", "from-slack"]
            let tsv : Except SyncError ℚ :=
              match message.ts with
              | none => .ok acc.processed_ts
              | some s =>
                match pyFloat64 s with
                | none => .error .valueError
                | some q => .ok q
            match tsv with
            | .error e => ([issue], .error e)
            | .ok q =>
              let next := syncLoop_b64 settings sinkOk rest
                ⟨acc.created + 1, max acc.processed_ts q⟩
              (issue :: next.1, next.2)
          else ([], .error .sinkRejected)

/-- `run_sync` in the binary64 embedding. -/
def run_sync_b64 (settings : Settings) (fs : FsState) (pages : List (List Message))
    (sinkOk : ℕ → Bool) : RunOutput :=
  match _load_state fs with
  | .error e => ⟨[], fs, none, .error e⟩
  | .ok state =>
    match state with
    | .dict kvs =>
      let oldest := (kvs.lookup "last_ts").getD (.str "0")
      match _fetch_new_messages_b64 pages oldest with
      | .error e => ⟨[], fs, none, .error e⟩
      | .ok messages =>
        match pyFloatValue64 oldest with
        | none => ⟨[], fs, none, .error .valueError⟩
        | some oldestVal =>
          let lp := syncLoop_b64 settings sinkOk messages ⟨0, oldestVal⟩
          match lp.2 with
          | .error e => ⟨lp.1, fs, none, .error e⟩
          | .ok acc =>
            if 0 < acc.created then
              let newState := [("last_ts", formatFixed6 acc.processed_ts)]
              ⟨lp.1, _save_state fs newState, some newState,
                .ok ⟨messages.length, acc.created, acc.processed_ts⟩⟩
            else
              ⟨lp.1, fs, none, .ok ⟨messages.length, acc.created, acc.processed_ts⟩⟩
    | _ => ⟨[], fs, none, .error .attributeError⟩

/-! ## The run coordinator of `app/main.py`

`main.py` guards every pass with one `asyncio.Lock` (`_loop_lock`): the
periodic `_poll_loop` enters `async with _loop_lock` (waiting if the lock is
held), and the manual trigger `sync_now` first checks `_loop_lock.locked()`
and raises HTTP 423 (the busy signal) when it is held, otherwise acquires
and runs a pass.  asyncio is cooperative single-threaded scheduling, so a
task's code only interleaves at `await` points; `sync_now`'s locked-check
plus fast-path acquire happens with no `await` in between and is one atomic
step.  The state machine below has exactly those atomic steps. -/

/-- Program counter of one `sync_now` request handler task. -/
inductive TriggerPc where
  | start
  | running
  | doneOk
  | doneBusy
deriving DecidableEq, Repr

/-- Program counter of the periodic poller task. -/
inductive PollerPc where
  | sleeping
  | waiting
  | running
deriving DecidableEq, Repr

/-- Global state of the coordinator: the lock, the poller task and any
number of manual-trigger tasks. -/
structure CoordState where
  lockHeld : Bool
  poller : PollerPc
  triggers : List TriggerPc
deriving DecidableEq, Repr

/-- The atomic steps of the coordinator.  A pass is in flight exactly while
a task is in its `running` state. -/
inductive CoordStep : CoordState → CoordState → Prop where
  | pollAcquire (s : CoordState) (h1 : s.poller = .sleeping) (h2 : s.lockHeld = false) :
      CoordStep s ⟨true, .running, s.triggers⟩
  | pollDefer (s : CoordState) (h1 : s.poller = .sleeping) (h2 : s.lockHeld = true) :
      CoordStep s ⟨true, .waiting, s.triggers⟩
  | pollResume (s : CoordState) (h1 : s.poller = .waiting) (h2 : s.lockHeld = false) :
      CoordStep s ⟨true, .running, s.triggers⟩
  | pollFinish (s : CoordState) (h1 : s.poller = .running) :
      CoordStep s ⟨false, .sleeping, s.triggers⟩
  | trigBusy (l₁ l₂ : List TriggerPc) (s : CoordState)
      (h1 : s.triggers = l₁ ++ .start :: l₂) (h2 : s.lockHeld = true) :
      CoordStep s ⟨s.lockHeld, s.poller, l₁ ++ .doneBusy :: l₂⟩
  | trigAcquire (l₁ l₂ : List TriggerPc) (s : CoordState)
      (h1 : s.triggers = l₁ ++ .start :: l₂) (h2 : s.lockHeld = false) :
      CoordStep s ⟨true, s.poller, l₁ ++ .running :: l₂⟩
  | trigFinish (l₁ l₂ : List TriggerPc) (s : CoordState)
      (h1 : s.triggers = l₁ ++ .running :: l₂) :
      CoordStep s ⟨false, s.poller, l₁ ++ .doneOk :: l₂⟩

/-- Number of trigger tasks currently executing a pass. -/
def runningTriggers (l : List TriggerPc) : ℕ :=
  l.countP (fun pc => pc = .running)

/-- Number of passes currently executing across all tasks. -/
def runningCount (s : CoordState) : ℕ :=
  (if s.poller = .running then 1 else 0) + runningTriggers s.triggers

/-- Initial state: lock free, poller sleeping, `n` triggers not yet begun. -/
def initCoord (n : ℕ) : CoordState :=
  ⟨false, .sleeping, List.replicate n .start⟩

/-- States reachable by any interleaving of the timer loop and manual
triggers. -/
def CoordReachable (n : ℕ) (s : CoordState) : Prop :=
  Relation.ReflTransGen CoordStep (initCoord n) s

/-! ## Helper lemmas -/

/-- Stepping the loop with the same message in front is the same step on
both sides; only the recursive tail differs. -/
lemma syncLoop_congr_tail (settings : Settings) (sinkOk : ℕ → Bool)
    (l₁ l₂ : List Message)
    (h : ∀ acc, syncLoop settings sinkOk l₁ acc = syncLoop settings sinkOk l₂ acc) :
    ∀ (xs : List Message) (acc : LoopAcc),
      syncLoop settings sinkOk (xs ++ l₁) acc = syncLoop settings sinkOk (xs ++ l₂) acc := by
  intro xs
  induction xs with
  | nil => simpa using h
  | cons x xs ih =>
    intro acc
    simp only [List.cons_append, syncLoop]
    split
    · exact ih acc
    · split
      · exact ih acc
      · split
        · rfl
        · split
          · split
            · rfl
            · simp only [List.append_eq] at ih ⊢
              rw [ih]
          · rfl

/-- Every issue the message loop creates carries the fixed label list. -/
lemma syncLoop_issue_labels (settings : Settings) (sinkOk : ℕ → Bool) :
    ∀ (msgs : List Message) (acc : LoopAcc),
      ∀ i ∈ (syncLoop settings sinkOk msgs acc).1,
        i.labels = ["codex-runner", "from-slack"] := by
  intro msgs
  induction msgs with
  | nil => intro acc i hi; simp [syncLoop] at hi
  | cons x xs ih =>
    intro acc i hi
    simp only [syncLoop] at hi
    split at hi
    · exact ih acc i hi
    · split at hi
      · exact ih acc i hi
      · split at hi
        · simp at hi
        · split at hi
          · split at hi
            · rcases List.mem_cons.mp hi with hi | hi
              · subst hi; rfl
              · exact absurd hi (by simp)
            · rcases List.mem_cons.mp hi with hi | hi
              · subst hi; rfl
              · exact ih _ i hi
          · simp at hi

/-- The loop accumulator's `processed_ts` never decreases: it is only ever
replaced by `max processed_ts (float(ts))`. -/
lemma syncLoop_ts_mono (settings : Settings) (sinkOk : ℕ → Bool) :
    ∀ (msgs : List Message) (acc acc' : LoopAcc),
      (syncLoop settings sinkOk msgs acc).2 = .ok acc' →
      acc.processed_ts ≤ acc'.processed_ts := by
  intro msgs
  induction msgs with
  | nil =>
    intro acc acc' h
    simp only [syncLoop, Except.ok.injEq] at h
    rw [← h]
  | cons x xs ih =>
    intro acc acc' h
    simp only [syncLoop] at h
    split at h
    · exact ih _ _ h
    · split at h
      · exact ih _ _ h
      · split at h
        · simp at h
        · split at h
          · split at h
            · simp at h
            · exact le_trans (le_max_left _ _) (ih _ _ h)
          · simp at h

/-! ## Claim theorems

The section-local attribute below restores the default reducibility of the
Batteries rational-arithmetic primitives so that concrete witness runs can
be evaluated by `decide` and `rfl` (Batteries marks them `@[irreducible]`
purely to keep the elaborator from unfolding them accidentally; the kernel
semantics is unchanged). -/

section ClaimTheorems

attribute [local semireducible] Rat.add Rat.mul Rat.inv Rat.sub Rat.ofScientific

/-- C3: for every sequence of fetched messages, a message that carries a
`subtype` field, or whose trimmed text does not start with `"/codex"`, never
causes an issue to be created and never changes the advanced marker: the
message loop computes the identical outcome (issues created, created count,
`processed_ts`, and error if any) with the message deleted from the
sequence. -/
theorem C3_skipped_message_is_noop (settings : Settings) (sinkOk : ℕ → Bool)
    (xs ys : List Message) (m : Message) (acc : LoopAcc)
    (h : pyTruthy m.subtype = true ∨
      pyStartswith (pyStrip (m.text.getD "")) "/codex" = false) :
    syncLoop settings sinkOk (xs ++ m :: ys) acc
      = syncLoop settings sinkOk (xs ++ ys) acc := by
  apply syncLoop_congr_tail
  intro acc0
  rcases h with h | h
  · simp [syncLoop, h]
  · by_cases hsub : pyTruthy m.subtype = true
    · simp [syncLoop, hsub]
    · simp [syncLoop, hsub, h]

/-- Witness for C3 at a concrete non-command message. -/
theorem C3_witness :
    syncLoop ⟨"a", "C", "r", "t"⟩ (fun _ => true)
        ([] ++ (⟨some "1", some "hello", none, none⟩ : Message) :: []) ⟨0, 0⟩
      = syncLoop ⟨"a", "C", "r", "t"⟩ (fun _ => true) ([] ++ []) ⟨0, 0⟩ :=
  C3_skipped_message_is_noop ⟨"a", "C", "r", "t"⟩ (fun _ => true) [] []
    ⟨some "1", some "hello", none, none⟩ ⟨0, 0⟩ (Or.inr (by decide))

/-- C10: every issue created by a synchronization pass (including a pass
that fails later) is created with the label list exactly
`["codex-runner", "from-slack"]`. -/
theorem C10_issue_labels (settings : Settings) (fs : FsState)
    (pages : List (List Message)) (sinkOk : ℕ → Bool) :
    ∀ i ∈ (run_sync settings fs pages sinkOk).issues,
      i.labels = ["codex-runner", "from-slack"] := by
  intro i hi
  simp only [run_sync] at hi
  split at hi
  · simp at hi
  · split at hi
    · split at hi
      · simp at hi
      · split at hi
        · simp at hi
        · split at hi
          · exact syncLoop_issue_labels _ _ _ _ i hi
          · split at hi
            · exact syncLoop_issue_labels _ _ _ _ i hi
            · exact syncLoop_issue_labels _ _ _ _ i hi
    · simp at hi

/-- Witness for C10 at a concrete pass creating one issue. -/
theorem C10_witness :
    ((run_sync ⟨"t", "C123", "me/repo", "g"⟩ ⟨true, none⟩
        [[⟨some "0.5", some "/codex a", none, none⟩]] (fun _ => true)).issues.getD 0
        ⟨"", "", "", []⟩).labels = ["codex-runner", "from-slack"] :=
  C10_issue_labels ⟨"t", "C123", "me/repo", "g"⟩ ⟨true, none⟩
    [[⟨some "0.5", some "/codex a", none, none⟩]] (fun _ => true) _ (by decide)

/-- C4 (code bug): the issue formatter is not total.  On a message whose
text strips to the empty string, `text.splitlines()[0]` indexes the empty
list and raises `IndexError`, so no title/body pair is returned and the
intended fallback title (the dead `or "Slack Codex Request"` alternative) is
never reached. -/
theorem C4_formatter_crashes_on_empty_text :
    _format_issue ⟨some "123.5", some "  \n ", none, none⟩ "C123"
      = .error .indexError := rfl

/-- C8 counterexample: saving is not atomic with respect to partial writes.
Crashing right after the first character of the truncating write leaves the
file holding just an opening brace, which is neither the old contents nor
the new contents — an observable half-written state. -/
theorem C8_counterexample :
    some (String.mk [lbraceChar])
        ∈ saveCrashStates ⟨true, some "old"⟩ [("last_ts", "1.000000")] ∧
    some (String.mk [lbraceChar]) ≠ (⟨true, some "old"⟩ : FsState).contents ∧
    some (String.mk [lbraceChar])
        ≠ (_save_state ⟨true, some "old"⟩ [("last_ts", "1.000000")]).contents := by
  refine ⟨by decide, by decide, by decide⟩

/-- C8 amended: saving durably writes the serialized cursor, creating the
containing directory, but the write is a plain truncate-and-write: after a
crash during the save, the observable contents are the old contents or an
arbitrary prefix of the new contents (not necessarily old-or-new as
atomicity would require). -/
theorem C8_save_amended (fs : FsState) (st : List (String × String)) :
    ((_save_state fs st).dirExists = true ∧
      (_save_state fs st).contents = some (json_dumps_indent2 st ++ "\n")) ∧
    (∀ c ∈ saveCrashStates fs st,
      c = fs.contents ∨
        ∃ k, c = some (String.mk ((json_dumps_indent2 st ++ "\n").data.take k))) := by
  refine ⟨⟨rfl, rfl⟩, ?_⟩
  intro c hc
  simp only [saveCrashStates, List.mem_cons, List.mem_map, List.mem_range] at hc
  rcases hc with rfl | ⟨k, _, rfl⟩
  · exact Or.inl rfl
  · exact Or.inr ⟨k, rfl⟩

/-- Witness for C8 amended at a concrete crash state. -/
theorem C8_save_amended_witness :
    (_save_state (⟨true, none⟩ : FsState) [("last_ts", "0.000000")]).dirExists = true ∧
    (some (String.mk []) = (⟨true, none⟩ : FsState).contents ∨
      ∃ k, some (String.mk []) = some (String.mk
        ((json_dumps_indent2 [("last_ts", "0.000000")] ++ "\n").data.take k))) :=
  ⟨(C8_save_amended ⟨true, none⟩ [("last_ts", "0.000000")]).1.1,
   (C8_save_amended ⟨true, none⟩ [("last_ts", "0.000000")]).2 (some (String.mk []))
      (by decide)⟩

/-- Count of a member inserted in the middle of a trigger list. -/
lemma runningTriggers_append_cons (l₁ l₂ : List TriggerPc) (x : TriggerPc) :
    runningTriggers (l₁ ++ x :: l₂)
      = runningTriggers l₁ + runningTriggers l₂
        + (if x = .running then 1 else 0) := by
  simp only [runningTriggers, List.countP_append, List.countP_cons]
  by_cases hx : x = .running <;> simp [hx] <;> omega

/-- One step preserves the lock invariant: the number of passes in flight is
1 when the lock is held and 0 when it is free. -/
lemma coordStep_inv {s s' : CoordState} (h : CoordStep s s')
    (hs : runningCount s = if s.lockHeld then 1 else 0) :
    runningCount s' = if s'.lockHeld then 1 else 0 := by
  cases h with
  | pollAcquire s h1 h2 =>
    simp only [runningCount, h1, h2] at hs ⊢
    simp at hs ⊢
    omega
  | pollDefer s h1 h2 =>
    simp only [runningCount, h1, h2] at hs ⊢
    simp at hs ⊢
    omega
  | pollResume s h1 h2 =>
    simp only [runningCount, h1, h2] at hs ⊢
    simp at hs ⊢
    omega
  | pollFinish s h1 =>
    simp only [runningCount, h1] at hs ⊢
    by_cases hl : s.lockHeld = true <;> simp [hl] at hs <;> simp <;> omega
  | trigBusy l₁ l₂ s h1 h2 =>
    simp only [runningCount, h1, h2, runningTriggers_append_cons] at hs ⊢
    by_cases hp : s.poller = PollerPc.running <;> simp [hp] at hs ⊢ <;> omega
  | trigAcquire l₁ l₂ s h1 h2 =>
    simp only [runningCount, h1, h2, runningTriggers_append_cons] at hs ⊢
    by_cases hp : s.poller = PollerPc.running <;> simp [hp] at hs ⊢ <;> omega
  | trigFinish l₁ l₂ s h1 =>
    simp only [runningCount, h1, runningTriggers_append_cons] at hs ⊢
    by_cases hp : s.poller = PollerPc.running <;>
      by_cases hl : s.lockHeld = true <;> simp [hp, hl] at hs ⊢ <;> omega

/-- The lock invariant holds in every reachable state. -/
lemma coordInv_reachable {n : ℕ} {s : CoordState} (h : CoordReachable n s) :
    runningCount s = if s.lockHeld then 1 else 0 := by
  induction h with
  | refl => simp [initCoord, runningCount, runningTriggers, List.countP_replicate]
  | tail _ step ih => exact coordStep_inv step ih

/-- Index below the split point: the surgery leaves the entry unchanged. -/
lemma getElem?_append_cons_lt {α : Type} {l₁ l₂ : List α} {x : α} {i : ℕ}
    (h : i < l₁.length) : (l₁ ++ x :: l₂)[i]? = l₁[i]? := by
  rw [List.getElem?_append]
  simp [h]

/-- Index at the split point: the surgery hits exactly the replaced entry. -/
lemma getElem?_append_cons_len {α : Type} (l₁ : List α) (x : α) (l₂ : List α) :
    (l₁ ++ x :: l₂)[l₁.length]? = some x := by
  rw [List.getElem?_append_right (le_refl _)]
  simp

/-- Index above the split point: the surgery leaves the entry unchanged. -/
lemma getElem?_append_cons_gt {α : Type} {l₁ l₂ : List α} (x y : α) {i : ℕ}
    (h : l₁.length < i) : (l₁ ++ x :: l₂)[i]? = (l₁ ++ y :: l₂)[i]? := by
  rw [List.getElem?_append_right (le_of_lt h), List.getElem?_append_right (le_of_lt h)]
  obtain ⟨j, hj⟩ : ∃ j, i - l₁.length = j + 1 := ⟨i - l₁.length - 1, by omega⟩
  rw [hj]
  simp

/-- From a state with the lock held, a trigger that has not started can only
stay where it is or fail with the busy outcome — it can never enter the
running state (and nothing can, while the lock is held). -/
lemma coordStep_start_locked {s s' : CoordState} (i : ℕ) (h : CoordStep s s')
    (hlock : s.lockHeld = true) (hi : s.triggers[i]? = some .start) :
    s'.triggers[i]? = some .start ∨ s'.triggers[i]? = some .doneBusy := by
  cases h with
  | pollAcquire s h1 h2 => rw [hlock] at h2; exact absurd h2 (by simp)
  | pollDefer s h1 h2 => exact Or.inl hi
  | pollResume s h1 h2 => rw [hlock] at h2; exact absurd h2 (by simp)
  | pollFinish s h1 => exact Or.inl hi
  | trigBusy l₁ l₂ s h1 h2 =>
    rw [h1] at hi
    rcases lt_trichotomy i l₁.length with hc | hc | hc
    · left
      rw [getElem?_append_cons_lt hc] at hi
      rw [getElem?_append_cons_lt hc]
      exact hi
    · subst hc
      right
      exact getElem?_append_cons_len l₁ _ l₂
    · left
      rw [getElem?_append_cons_gt TriggerPc.doneBusy TriggerPc.start hc]
      exact hi
  | trigAcquire l₁ l₂ s h1 h2 => rw [hlock] at h2; exact absurd h2 (by simp)
  | trigFinish l₁ l₂ s h1 =>
    rw [h1] at hi
    rcases lt_trichotomy i l₁.length with hc | hc | hc
    · left
      rw [getElem?_append_cons_lt hc] at hi
      rw [getElem?_append_cons_lt hc]
      exact hi
    · subst hc
      rw [getElem?_append_cons_len l₁ _ l₂] at hi
      simp at hi
    · left
      rw [getElem?_append_cons_gt TriggerPc.doneOk TriggerPc.running hc]
      exact hi

/-- C2: in every reachable interleaving of the periodic timer loop and
manual trigger calls, at most one synchronization pass executes at any
instant; and whenever the lock is held (a pass is in flight), a manual
trigger that has not started yet can only fail with the busy outcome — no
step makes it enter a pass, and it never waits. -/
theorem C2_single_flight (n : ℕ) (s s' : CoordState) (i : ℕ)
    (h : CoordReachable n s) :
    runningCount s ≤ 1 ∧
    (CoordStep s s' → s.lockHeld = true → s.triggers[i]? = some .start →
      s'.triggers[i]? = some .start ∨ s'.triggers[i]? = some .doneBusy) := by
  constructor
  · rw [coordInv_reachable h]
    split <;> omega
  · intro hst hl hi
    exact coordStep_start_locked i hst hl hi

/-- Hexadecimal digits decode back to their value. -/
lemma hexVal_hexDigitChar {k : ℕ} (h : k < 16) :
    hexVal (hexDigitChar k) = some k := by
  interval_cases k <;> decide

/-- Decoding of one `\u00xx` escape produced by the encoder for a control
character. -/
lemma parseJStringBody_uEscape (c : Char) (tail : List Char) (h8 : c.toNat < 32) :
    parseJStringBody ('\\' :: 'u' :: '0' :: '0' :: hexDigitChar (c.toNat / 16)
        :: hexDigitChar (c.toNat % 16) :: tail)
      = (parseJStringBody tail).map (fun p => (c :: p.1, p.2)) := by
  have hdiv : c.toNat / 16 < 16 := by omega
  have hmod : c.toNat % 16 < 16 := Nat.mod_lt _ (by omega)
  rw [parseJStringBody.eq_def]
  simp +decide [hexVal_hexDigitChar hdiv, hexVal_hexDigitChar hmod,
    show hexVal '0' = some 0 from rfl]
  have ht : 16 * (c.toNat / 16) + c.toNat % 16 = c.toNat := Nat.div_add_mod _ _
  rw [ht]
  rw [if_pos (Or.inl (by omega : c.toNat < 55296))]
  simp [Char.ofNat_toNat]

/-- Round trip of the JSON string escaping through the string-body parser:
the escaped characters followed by a closing quote parse back to exactly the
original characters. -/
lemma parseJStringBody_escape (cs : List Char) :
    ∀ rest : List Char,
      parseJStringBody (jsonEscape cs ++ '"' :: rest) = some (cs, rest) := by
  induction cs with
  | nil =>
    intro rest
    rw [jsonEscape, List.nil_append, parseJStringBody.eq_def]
    simp
  | cons c cs ih =>
    intro rest
    simp only [jsonEscape, List.append_assoc]
    by_cases h1 : c = '"'
    · subst h1
      simp +decide only [jsonEscapeChar, if_true, List.cons_append, List.nil_append]
      rw [parseJStringBody.eq_def]
      simp +decide [ih]
    · by_cases h2 : c = '\\'
      · subst h2
        simp +decide only [jsonEscapeChar, if_true, if_false, List.cons_append,
          List.nil_append]
        rw [parseJStringBody.eq_def]
        simp +decide [ih]
      · by_cases h3 : c = '\n'
        · subst h3
          simp +decide only [jsonEscapeChar, if_true, if_false, List.cons_append,
            List.nil_append]
          rw [parseJStringBody.eq_def]
          simp +decide [ih]
        · by_cases h4 : c = '\t'
          · subst h4
            simp +decide only [jsonEscapeChar, if_true, if_false, List.cons_append,
              List.nil_append]
            rw [parseJStringBody.eq_def]
            simp +decide [ih]
          · by_cases h5 : c = '\r'
            · subst h5
              simp +decide only [jsonEscapeChar, if_true, if_false, List.cons_append,
                List.nil_append]
              rw [parseJStringBody.eq_def]
              simp +decide [ih]
            · by_cases h6 : c.toNat = 8
              · have hc : c = Char.ofNat 8 := by rw [← h6, Char.ofNat_toNat]
                subst hc
                simp +decide only [jsonEscapeChar, if_true, if_false, List.cons_append,
                  List.nil_append]
                rw [parseJStringBody.eq_def]
                simp +decide [ih]
              · by_cases h7 : c.toNat = 12
                · have hc : c = Char.ofNat 12 := by rw [← h7, Char.ofNat_toNat]
                  subst hc
                  simp +decide only [jsonEscapeChar, if_true, if_false, List.cons_append,
                    List.nil_append]
                  rw [parseJStringBody.eq_def]
                  simp +decide [ih]
                · by_cases h8 : c.toNat < 32
                  · simp only [jsonEscapeChar, if_neg h1, if_neg h2, if_neg h3,
                      if_neg h4, if_neg h5, if_neg h6, if_neg h7, if_pos h8,
                      List.cons_append, List.nil_append]
                    rw [parseJStringBody_uEscape c _ h8, ih]
                    rfl
                  · simp only [jsonEscapeChar, if_neg h1, if_neg h2, if_neg h3,
                      if_neg h4, if_neg h5, if_neg h6, if_neg h7, if_neg h8,
                      List.singleton_append]
                    rw [parseJStringBody.eq_def]
                    simp only [if_neg h1, if_neg h2, if_neg h8, ih]
                    rfl

/-- Witness for C2: after a manual trigger acquired the lock, a second
trigger's invocation step ends in the busy outcome. -/
theorem C2_witness :
    runningCount ⟨true, PollerPc.sleeping, [TriggerPc.running, TriggerPc.start]⟩ ≤ 1 ∧
    ((⟨true, PollerPc.sleeping, [TriggerPc.running, TriggerPc.doneBusy]⟩ :
        CoordState).triggers[1]? = some TriggerPc.start ∨
     (⟨true, PollerPc.sleeping, [TriggerPc.running, TriggerPc.doneBusy]⟩ :
        CoordState).triggers[1]? = some TriggerPc.doneBusy) := by
  have reach : CoordReachable 2 ⟨true, .sleeping, [.running, .start]⟩ :=
    Relation.ReflTransGen.single (CoordStep.trigAcquire [] [.start] _ rfl rfl)
  exact ⟨(C2_single_flight 2 _ ⟨true, .sleeping, [.running, .doneBusy]⟩ 1 reach).1,
    (C2_single_flight 2 _ ⟨true, .sleeping, [.running, .doneBusy]⟩ 1 reach).2
      (CoordStep.trigBusy [.running] [] _ rfl rfl) rfl rfl⟩

/-- At any sufficient fuel, the serialized one-entry state dictionary
parses back to itself with only the trailing newline left over. -/
lemma parseJ_dumps_singleton (k v : String) (f : ℕ) :
    parseJ (f + 3) .value ((json_dumps_indent2 [(k, v)] ++ "\n").data)
      = some (.dict [(k, .str v)], ['\n']) := by
  have hdata : (json_dumps_indent2 [(k, v)] ++ "\n").data
      = lbraceChar :: '\n' :: ' ' :: ' ' :: '"' ::
        (jsonEscape k.data ++ '"' :: ':' :: ' ' :: '"' ::
          (jsonEscape v.data ++ '"' :: '\n' :: rbraceChar :: '\n' :: [])) := by
    simp [json_dumps_indent2, joinSep, jsonEncodePairChars, String.data_append]
  rw [hdata]
  rw [parseJ.eq_def]
  simp +decide [skipWs, List.dropWhile_cons]
  rw [parseJ.eq_def]
  simp +decide [skipWs, List.dropWhile_cons, parseJStringTok, parseJStringBody_escape]
  rw [parseJ.eq_def]
  simp +decide [skipWs, List.dropWhile_cons, parseJStringBody_escape, dictSet]

/-- Parsing the serialized one-entry state dictionary recovers it exactly,
for every marker string. -/
lemma json_loads_dumps_singleton (k v : String) :
    json_loads (json_dumps_indent2 [(k, v)] ++ "\n")
      = some (.dict [(k, .str v)]) := by
  obtain ⟨f, hf⟩ : ∃ f, 2 * (json_dumps_indent2 [(k, v)] ++ "\n").data.length + 2
      = f + 3 := by
    have h1 : 0 < (json_dumps_indent2 [(k, v)] ++ "\n").data.length := by
      rw [String.data_append]
      simp
    exact ⟨2 * (json_dumps_indent2 [(k, v)] ++ "\n").data.length - 1, by omega⟩
  rw [json_loads.eq_def, hf, parseJ_dumps_singleton]
  simp +decide [skipWs, List.dropWhile_cons]

/-- Keyed pairing succeeds exactly when every marker parses, and the pairs
carry the messages in order with their parsed keys. -/
lemma keyedOf_spec :
    ∀ (l : List Message) (ks : List (ℚ × Message)), keyedOf l = some ks →
      ks.map Prod.snd = l ∧ ∀ p ∈ ks, keyOf p.2 = some p.1 := by
  intro l
  induction l with
  | nil =>
    intro ks h
    simp only [keyedOf, List.mapM_nil, pure] at h
    cases h
    simp
  | cons m l ih =>
    intro ks h
    simp only [keyedOf, List.mapM_cons] at h
    cases hm : keyOf m with
    | none => rw [hm] at h; simp at h
    | some qm =>
      rw [hm] at h
      cases hl : l.mapM (fun m => (keyOf m).map (fun q => (q, m))) with
      | none => rw [hl] at h; simp at h
      | some ks' =>
        rw [hl] at h
        simp at h
        obtain ⟨h1, h2⟩ := ih ks' hl
        subst h
        refine ⟨by simp [h1], ?_⟩
        intro p hp
        rcases List.mem_cons.mp hp with hp | hp
        · subst hp; exact hm
        · exact h2 p hp

/-- Stable insertion before strictly smaller keys: inserting a key-`t` pair
puts it in front of every key-`t` pair already present. -/
lemma orderedInsert_filter_eq (t : ℚ) (x : ℚ × Message) (hx : x.1 = t) :
    ∀ l : List (ℚ × Message),
      (l.orderedInsert keyLe x).filter (fun p => decide (p.1 = t))
        = x :: l.filter (fun p => decide (p.1 = t)) := by
  intro l
  induction l with
  | nil => simp [List.orderedInsert, hx]
  | cons y l ih =>
    by_cases hyx : keyLe x y
    · simp [List.orderedInsert, hyx, List.filter_cons, hx]
    · have hy : ¬ y.1 = t := by
        intro hyt
        exact hyx (by unfold keyLe; rw [hx, hyt])
      simp [List.orderedInsert, hyx, List.filter_cons, hy, ih]

/-- Inserting a pair whose key is not `t` does not disturb the key-`t`
subsequence. -/
lemma orderedInsert_filter_ne (t : ℚ) (x : ℚ × Message) (hx : ¬ x.1 = t) :
    ∀ l : List (ℚ × Message),
      (l.orderedInsert keyLe x).filter (fun p => decide (p.1 = t))
        = l.filter (fun p => decide (p.1 = t)) := by
  intro l
  induction l with
  | nil => simp [List.orderedInsert, hx]
  | cons y l ih =>
    by_cases hyx : keyLe x y
    · simp [List.orderedInsert, hyx, List.filter_cons, hx]
    · simp [List.orderedInsert, hyx, List.filter_cons, ih]

/-- Stability of the modelled sort: the subsequence of any fixed key is
exactly the source-order subsequence of that key. -/
lemma insertionSort_filter_eq (t : ℚ) :
    ∀ l : List (ℚ × Message),
      (l.insertionSort keyLe).filter (fun p => decide (p.1 = t))
        = l.filter (fun p => decide (p.1 = t)) := by
  intro l
  induction l with
  | nil => simp [List.insertionSort]
  | cons x l ih =>
    show ((l.insertionSort keyLe).orderedInsert keyLe x).filter _ = _
    by_cases hx : x.1 = t
    · rw [orderedInsert_filter_eq t x hx, ih]
      simp [List.filter_cons, hx]
    · rw [orderedInsert_filter_ne t x hx, ih]
      simp [List.filter_cons, hx]

/-- C7: on the success path, `_fetch_new_messages` returns only messages
whose marker is strictly greater than the requested marker, sorted by marker
ascending, and — for every marker value above the threshold — the messages
of that marker appear exactly as in the concatenated backend pages, in
source order (stability); messages at or below the threshold are discarded.
-/
theorem C7_fetch_contract (pages : List (List Message)) (oldest : String)
    (oldestVal : ℚ) (msgs : List Message)
    (hov : pyFloat oldest = some oldestVal)
    (hok : _fetch_new_messages pages oldest = .ok msgs) :
    (∀ m ∈ msgs, ∃ q, keyOf m = some q ∧ oldestVal < q) ∧
    msgs.Pairwise (fun m₁ m₂ => (keyOf m₁).getD 0 ≤ (keyOf m₂).getD 0) ∧
    (∀ t : ℚ, oldestVal < t →
      msgs.filter (fun m => decide (keyOf m = some t))
        = pages.flatten.filter (fun m => decide (keyOf m = some t))) ∧
    (∀ t : ℚ, t ≤ oldestVal →
      msgs.filter (fun m => decide (keyOf m = some t)) = []) := by
  rcases hkd : keyedOf pages.flatten with _ | keyed
  · rw [_fetch_new_messages, _fetch_new_messages_obj, hkd] at hok
    simp at hok
  · rw [_fetch_new_messages, _fetch_new_messages_obj, hkd,
      show pyFloatValue (.str oldest) = pyFloat oldest from rfl, hov] at hok
    simp only [Except.ok.injEq] at hok
    subst hok
    obtain ⟨hmap, hkeys⟩ := keyedOf_spec _ _ hkd
    have hsortkeys : ∀ p ∈ (keyed.insertionSort keyLe), keyOf p.2 = some p.1 := by
      intro p hp
      exact hkeys p ((List.perm_insertionSort keyLe keyed).mem_iff.mp hp)
    have hfiltkeys :
        ∀ p ∈ (keyed.insertionSort keyLe).filter (fun p => decide (oldestVal < p.1)),
          keyOf p.2 = some p.1 := by
      intro p hp
      exact hsortkeys p (List.mem_of_mem_filter hp)
    refine ⟨?_, ?_, ?_, ?_⟩
    · intro m hm
      rcases List.mem_map.mp hm with ⟨p, hp, rfl⟩
      refine ⟨p.1, hfiltkeys p hp, ?_⟩
      have := List.of_mem_filter hp
      simpa using this
    · rw [List.pairwise_map]
      have hsorted : List.Pairwise keyLe (keyed.insertionSort keyLe) :=
        List.sorted_insertionSort keyLe keyed
      have hpf : List.Pairwise keyLe
          ((keyed.insertionSort keyLe).filter (fun p => decide (oldestVal < p.1))) :=
        hsorted.filter _
      refine hpf.imp_of_mem ?_
      intro a b ha hb hab
      rw [hfiltkeys a ha, hfiltkeys b hb]
      exact hab
    · intro t ht
      rw [List.filter_map]
      have hcongr1 :
          ((keyed.insertionSort keyLe).filter (fun p => decide (oldestVal < p.1))).filter
              ((fun m => decide (keyOf m = some t)) ∘ Prod.snd)
            = ((keyed.insertionSort keyLe).filter (fun p => decide (oldestVal < p.1))).filter
              (fun p => decide (p.1 = t)) := by
        apply List.filter_congr
        intro p hp
        rw [Function.comp_apply, hfiltkeys p hp]
        simp
      rw [hcongr1, List.filter_filter]
      have hcongr2 :
          (keyed.insertionSort keyLe).filter
              (fun p => decide (p.1 = t) && decide (oldestVal < p.1))
            = (keyed.insertionSort keyLe).filter (fun p => decide (p.1 = t)) := by
        apply List.filter_congr
        intro p _
        by_cases hpt : p.1 = t
        · simp [hpt, ht]
        · simp [hpt]
      rw [hcongr2, insertionSort_filter_eq t keyed]
      rw [← hmap, List.filter_map]
      congr 1
      apply List.filter_congr
      intro p hp
      rw [Function.comp_apply, hkeys p hp]
      simp
    · intro t ht
      rw [List.filter_eq_nil_iff]
      intro m hm
      rcases List.mem_map.mp hm with ⟨p, hp, rfl⟩
      have hgt : oldestVal < p.1 := by
        have := List.of_mem_filter hp
        simpa using this
      rw [hfiltkeys p hp]
      simp only [decide_eq_true_eq]
      intro he
      rw [Option.some.injEq] at he
      rw [he] at hgt
      exact absurd hgt (not_lt.mpr ht)

/-- C6: for every cursor marker value (any string, so in particular every
string-encoded decimal), saving it via the cursor store and loading it back
yields the identical marker — the exact string round-trips through the JSON
encoding with no drift. -/
theorem C6_cursor_round_trip (fs : FsState) (m : String) :
    _load_state (_save_state fs [("last_ts", m)])
      = .ok (.dict [("last_ts", .str m)]) := by
  simp [_load_state, _save_state, json_loads_dumps_singleton]

/-- Witness for C7 at two out-of-order pages. -/
theorem C7_witness :
    _fetch_new_messages
        [[⟨some "2", some "b", none, none⟩], [⟨some "1", some "a", none, none⟩]] "0"
      = .ok [⟨some "1", some "a", none, none⟩, ⟨some "2", some "b", none, none⟩] ∧
    ([⟨some "1", some "a", none, none⟩, ⟨some "2", some "b", none, none⟩] :
        List Message).filter (fun m => decide (keyOf m = some 2))
      = ([[⟨some "2", some "b", none, none⟩], [⟨some "1", some "a", none, none⟩]] :
          List (List Message)).flatten.filter (fun m => decide (keyOf m = some 2)) := by
  have hok : _fetch_new_messages
      [[⟨some "2", some "b", none, none⟩], [⟨some "1", some "a", none, none⟩]] "0"
      = .ok [⟨some "1", some "a", none, none⟩, ⟨some "2", some "b", none, none⟩] := rfl
  refine ⟨hok, ?_⟩
  exact (C7_fetch_contract _ "0" 0 _ (by decide) hok).2.2.1 2 (by norm_num)

/-- Fuel irrelevance for the digit renderer: any sufficient fuel computes
the same digits. -/
lemma natToDecimalAux_fuel {f1 f2 n : ℕ} (h1 : n < f1) (h2 : n < f2) :
    ∀ acc, natToDecimalAux f1 n acc = natToDecimalAux f2 n acc := by
  induction f1 generalizing f2 n with
  | zero => omega
  | succ f1 ih =>
    intro acc
    cases f2 with
    | zero => omega
    | succ f2 =>
      simp only [natToDecimalAux]
      by_cases hn : n < 10
      · simp [hn]
      · have hd : n / 10 < n := Nat.div_lt_self (by omega) (by omega)
        simp only [if_neg hn]
        exact ih (by omega) (by omega) _

/-- The accumulator of the digit renderer is just appended. -/
lemma natToDecimalAux_append (n : ℕ) :
    ∀ acc, natToDecimalAux (n + 1) n acc = natToDecimal n ++ acc := by
  induction n using Nat.strong_induction_on with
  | _ n ih =>
    intro acc
    by_cases hn : n < 10
    · simp [natToDecimal, natToDecimalAux, hn]
    · have hd : n / 10 < n := Nat.div_lt_self (by omega) (by omega)
      have hstep : ∀ a, natToDecimalAux (n + 1) n a
          = natToDecimalAux (n / 10 + 1) (n / 10) (digitChar (n % 10) :: a) := by
        intro a
        simp only [natToDecimalAux, if_neg hn]
        exact natToDecimalAux_fuel (by omega) (Nat.lt_succ_self _) _
      rw [hstep acc, ih _ hd]
      conv_rhs => rw [natToDecimal, hstep [], ih _ hd]
      simp

/-- Decomposition of the digits of a number with at least two digits. -/
lemma natToDecimal_step {n : ℕ} (hn : ¬ n < 10) :
    natToDecimal n = natToDecimal (n / 10) ++ [digitChar (n % 10)] := by
  have hd : n / 10 < n := Nat.div_lt_self (by omega) (by omega)
  rw [natToDecimal]
  simp only [natToDecimalAux, if_neg hn]
  rw [natToDecimalAux_fuel (by omega) (Nat.lt_succ_self (n / 10)), natToDecimalAux_append]

/-- Code point of a rendered digit. -/
lemma digitChar_toNat {d : ℕ} (h : d < 10) : (digitChar d).toNat = 48 + d := by
  interval_cases d <;> decide

/-- Rendered digits satisfy `Char.isDigit`. -/
lemma digitChar_isDigit {d : ℕ} (h : d < 10) : (digitChar d).isDigit = true := by
  interval_cases d <;> decide

/-- The digit renderer emits only digit characters. -/
lemma natToDecimal_digits (n : ℕ) : ∀ c ∈ natToDecimal n, c.isDigit = true := by
  induction n using Nat.strong_induction_on with
  | _ n ih =>
    by_cases hn : n < 10
    · intro c hc
      simp [natToDecimal, natToDecimalAux, hn] at hc
      subst hc
      exact digitChar_isDigit hn
    · have hd : n / 10 < n := Nat.div_lt_self (by omega) (by omega)
      rw [natToDecimal_step hn]
      intro c hc
      rcases List.mem_append.mp hc with hc | hc
      · exact ih _ hd c hc
      · simp at hc
        subst hc
        exact digitChar_isDigit (Nat.mod_lt _ (by omega))

/-- The digit renderer never returns the empty list. -/
lemma natToDecimal_ne_nil (n : ℕ) : natToDecimal n ≠ [] := by
  by_cases hn : n < 10
  · simp [natToDecimal, natToDecimalAux, hn]
  · rw [natToDecimal_step hn]
    simp

/-- Parsing the rendered digits gives back the number. -/
lemma digitsVal_natToDecimal (n : ℕ) : digitsVal (natToDecimal n) = n := by
  induction n using Nat.strong_induction_on with
  | _ n ih =>
    by_cases hn : n < 10
    · simp only [natToDecimal, natToDecimalAux, if_pos hn, digitsVal, List.foldl_cons,
        List.foldl_nil]
      rw [digitChar_toNat hn]
      omega
    · have hd : n / 10 < n := Nat.div_lt_self (by omega) (by omega)
      rw [natToDecimal_step hn]
      simp only [digitsVal, List.foldl_append, List.foldl_cons, List.foldl_nil]
      have hih := ih _ hd
      simp only [digitsVal] at hih
      rw [hih, digitChar_toNat (Nat.mod_lt _ (by omega))]
      omega

/-- Digit-count bound of the renderer. -/
lemma natToDecimal_length_le :
    ∀ (k n : ℕ), n < 10 ^ k → 1 ≤ k → (natToDecimal n).length ≤ k := by
  intro k
  induction k with
  | zero => omega
  | succ k ih =>
    intro n hn _
    by_cases h10 : n < 10
    · have : natToDecimal n = [digitChar n] := by
        simp [natToDecimal, natToDecimalAux, h10]
      rw [this]
      simp only [List.length_singleton]
      omega
    · rw [natToDecimal_step h10]
      have hk : 1 ≤ k := by
        by_contra hk0
        have : k = 0 := by omega
        subst this
        simp at hn
        omega
      have hdiv : n / 10 < 10 ^ k := by
        apply Nat.div_lt_of_lt_mul
        calc n < 10 ^ (k + 1) := hn
          _ = 10 * 10 ^ k := by ring
      have := ih (n / 10) hdiv hk
      simp [List.length_append]
      omega

/-- Dropping on a predicate that holds nowhere is the identity. -/
lemma dropWhile_eq_self_of_none {p : Char → Bool} :
    ∀ {l : List Char}, (∀ c ∈ l, p c = false) → l.dropWhile p = l := by
  intro l h
  cases l with
  | nil => rfl
  | cons c l => simp [List.dropWhile_cons, h c (List.mem_cons_self c l)]

/-- Stripping a string with no whitespace anywhere is the identity. -/
lemma pyStrip_eq_self {s : String} (h : ∀ c ∈ s.data, pyIsSpace c = false) :
    pyStrip s = s := by
  rw [pyStrip, dropWhile_eq_self_of_none h, dropWhile_eq_self_of_none]
  · simp
  · intro c hc
    exact h c (by simpa using hc)

/-- Digit characters are not Python whitespace. -/
lemma pyIsSpace_of_digit {c : Char} (h : c.isDigit = true) : pyIsSpace c = false := by
  have hc : 48 ≤ c.toNat ∧ c.toNat ≤ 57 := by
    simp only [Char.isDigit, decide_eq_true_eq, Bool.and_eq_true] at h
    exact ⟨h.1, h.2⟩
  rw [pyIsSpace]
  set t := c.toNat with ht
  obtain ⟨h1, h2⟩ := hc
  interval_cases t <;> decide

/-- Taking digits from a digit block followed by a non-digit stops exactly
at the block boundary. -/
lemma takeWhile_digits_append {l₁ : List Char} (h1 : ∀ c ∈ l₁, c.isDigit = true)
    {x : Char} (hx : x.isDigit = false) (l₂ : List Char) :
    (l₁ ++ x :: l₂).takeWhile Char.isDigit = l₁ := by
  induction l₁ with
  | nil => simp [List.takeWhile_cons, hx]
  | cons c l₁ ih =>
    simp only [List.cons_append, List.takeWhile_cons, h1 c (List.mem_cons_self c l₁),
      if_true]
    rw [ih (fun c hc => h1 c (List.mem_cons_of_mem _ hc))]

/-- Taking digits from an all-digit list takes everything. -/
lemma takeWhile_digits_all {l : List Char} (h : ∀ c ∈ l, c.isDigit = true) :
    l.takeWhile Char.isDigit = l := by
  induction l with
  | nil => rfl
  | cons c l ih =>
    simp only [List.takeWhile_cons, h c (List.mem_cons_self c l), if_true]
    rw [ih (fun c hc => h c (List.mem_cons_of_mem _ hc))]

/-- Leading zeros do not change the parsed value. -/
lemma digitsVal_padZeros (k : ℕ) (ds : List Char) :
    digitsVal (padZeros k ds) = digitsVal ds := by
  rw [padZeros, digitsVal, List.foldl_append]
  have : ∀ j, List.foldl (fun a c => 10 * a + (c.toNat - 48)) 0
      (List.replicate j '0') = 0 := by
    intro j
    induction j with
    | zero => rfl
    | succ j ih => simpa [List.replicate_succ] using ih
  rw [this]
  rfl

/-- Characters of the padded block are digits. -/
lemma padZeros_digits {k : ℕ} {ds : List Char} (h : ∀ c ∈ ds, c.isDigit = true) :
    ∀ c ∈ padZeros k ds, c.isDigit = true := by
  intro c hc
  rcases List.mem_append.mp hc with hc | hc
  · have := List.eq_of_mem_replicate hc
    subst this
    decide
  · exact h c hc

/-- Rounding never drops below the floor. -/
lemma le_roundHalfEvenInt (x : ℚ) : ⌊x⌋ ≤ roundHalfEvenInt x := by
  unfold roundHalfEvenInt
  split_ifs <;> omega

/-- Rounding never exceeds the floor plus one. -/
lemma roundHalfEvenInt_le_add_one (x : ℚ) : roundHalfEvenInt x ≤ ⌊x⌋ + 1 := by
  unfold roundHalfEvenInt
  split_ifs <;> omega

/-- Rounding an integer is the identity. -/
lemma roundHalfEvenInt_intCast (n : ℤ) : roundHalfEvenInt (n : ℚ) = n := by
  unfold roundHalfEvenInt
  rw [Int.floor_intCast]
  norm_num

/-- Round-half-even is monotone. -/
lemma roundHalfEvenInt_mono {x y : ℚ} (h : x ≤ y) :
    roundHalfEvenInt x ≤ roundHalfEvenInt y := by
  rcases lt_or_eq_of_le (Int.floor_le_floor h : ⌊x⌋ ≤ ⌊y⌋) with hf | hf
  · calc roundHalfEvenInt x ≤ ⌊x⌋ + 1 := roundHalfEvenInt_le_add_one x
      _ ≤ ⌊y⌋ := by omega
      _ ≤ roundHalfEvenInt y := le_roundHalfEvenInt y
  · unfold roundHalfEvenInt
    rw [← hf]
    split_ifs <;> first | omega | (exfalso; linarith)

/-- Value parsed from an unsigned fixed-point digit literal. -/
lemma pyFloatCore_digits (intDs fracDs : List Char)
    (hint : ∀ c ∈ intDs, c.isDigit = true) (hine : intDs ≠ [])
    (hfrac : ∀ c ∈ fracDs, c.isDigit = true) :
    pyFloatCore (intDs ++ '.' :: fracDs)
      = some ((digitsVal intDs : ℚ)
          + (digitsVal fracDs : ℚ) / (10 : ℚ) ^ fracDs.length) := by
  obtain ⟨c0, intTl, rfl⟩ : ∃ c0 tl, intDs = c0 :: tl := by
    cases intDs with
    | nil => exact absurd rfl hine
    | cons a b => exact ⟨a, b, rfl⟩
  have hc0 : c0.isDigit = true := hint c0 (List.mem_cons_self _ _)
  have hm : ¬ ((c0 :: intTl ++ '.' :: fracDs).head? = some '-') := by
    intro h
    simp only [List.cons_append, List.head?_cons, Option.some.injEq] at h
    subst h
    simp at hc0
  have hp : ¬ ((c0 :: intTl ++ '.' :: fracDs).head? = some '-'
      ∨ (c0 :: intTl ++ '.' :: fracDs).head? = some '+') := by
    rintro (h | h)
    · exact hm h
    · simp only [List.cons_append, List.head?_cons, Option.some.injEq] at h
      subst h
      simp at hc0
  rw [pyFloatCore]
  simp only [if_neg hm, if_neg hp]
  rw [takeWhile_digits_append hint (by decide) fracDs]
  rw [show (c0 :: intTl ++ '.' :: fracDs).drop (c0 :: intTl).length = '.' :: fracDs from
    List.drop_left _ _]
  simp only [List.head?_cons, Option.some.injEq, List.tail_cons, eq_self_iff_true,
    if_true]
  rw [takeWhile_digits_all hfrac, List.drop_length]
  simp [List.isEmpty_iff]

/-- Value parsed from a negated fixed-point digit literal. -/
lemma pyFloatCore_neg_digits (intDs fracDs : List Char)
    (hint : ∀ c ∈ intDs, c.isDigit = true) (hine : intDs ≠ [])
    (hfrac : ∀ c ∈ fracDs, c.isDigit = true) :
    pyFloatCore ('-' :: (intDs ++ '.' :: fracDs))
      = some (-((digitsVal intDs : ℚ)
          + (digitsVal fracDs : ℚ) / (10 : ℚ) ^ fracDs.length)) := by
  obtain ⟨c0, intTl, rfl⟩ : ∃ c0 tl, intDs = c0 :: tl := by
    cases intDs with
    | nil => exact absurd rfl hine
    | cons a b => exact ⟨a, b, rfl⟩
  rw [pyFloatCore]
  simp only [List.head?_cons, Option.some.injEq, List.tail_cons, eq_self_iff_true,
    true_or, if_true]
  rw [takeWhile_digits_append hint (by decide) fracDs]
  rw [show (c0 :: intTl ++ '.' :: fracDs).drop (c0 :: intTl).length = '.' :: fracDs from
    List.drop_left _ _]
  simp only [List.head?_cons, Option.some.injEq, List.tail_cons, eq_self_iff_true,
    if_true]
  rw [takeWhile_digits_all hfrac, List.drop_length]
  simp [List.isEmpty_iff]

/-- The rendered `%.6f` string parses back to the rounded value: the
persisted marker string denotes exactly the round-half-even of the stored
rational at six fractional digits. -/
lemma pyFloat_formatFixed6 (q : ℚ) :
    pyFloat (formatFixed6 q)
      = some ((roundHalfEvenInt (q * 1000000) : ℚ) / 1000000) := by
  have hint := natToDecimal_digits ((roundHalfEvenInt (q * 1000000)).natAbs / 1000000)
  have hfrac : ∀ c ∈ padZeros 6
      (natToDecimal ((roundHalfEvenInt (q * 1000000)).natAbs % 1000000)),
      c.isDigit = true :=
    padZeros_digits (natToDecimal_digits _)
  have hflen : (padZeros 6
      (natToDecimal ((roundHalfEvenInt (q * 1000000)).natAbs % 1000000))).length = 6 := by
    rw [padZeros, List.length_append, List.length_replicate]
    have hlt : (roundHalfEvenInt (q * 1000000)).natAbs % 1000000 < 10 ^ 6 :=
      Nat.mod_lt _ (by norm_num)
    have := natToDecimal_length_le 6 _ hlt (by norm_num)
    omega
  have hkey : ((((roundHalfEvenInt (q * 1000000)).natAbs / 1000000 : ℕ) : ℚ)
      + (((roundHalfEvenInt (q * 1000000)).natAbs % 1000000 : ℕ) : ℚ) / (10 : ℚ) ^ (6 : ℕ))
      = ((roundHalfEvenInt (q * 1000000)).natAbs : ℚ) / 1000000 := by
    rw [show (10 : ℚ) ^ (6 : ℕ) = 1000000 by norm_num]
    rw [eq_div_iff (by norm_num : (1000000 : ℚ) ≠ 0), add_mul,
      div_mul_cancel₀ _ (by norm_num : (1000000 : ℚ) ≠ 0)]
    exact_mod_cast (by omega :
      (roundHalfEvenInt (q * 1000000)).natAbs / 1000000 * 1000000
        + (roundHalfEvenInt (q * 1000000)).natAbs % 1000000
        = (roundHalfEvenInt (q * 1000000)).natAbs)
  rw [formatFixed6, pyFloat]
  by_cases hneg : roundHalfEvenInt (q * 1000000) < 0
      ∨ (roundHalfEvenInt (q * 1000000) = 0 ∧ q < 0)
  · rw [if_pos hneg]
    rw [pyStrip_eq_self]
    · show pyFloatCore ('-' :: (natToDecimal _ ++ '.' :: padZeros 6 (natToDecimal _)))
        = _
      rw [pyFloatCore_neg_digits _ _ hint (natToDecimal_ne_nil _) hfrac]
      rw [digitsVal_natToDecimal, digitsVal_padZeros, digitsVal_natToDecimal, hflen]
      rw [hkey]
      have habs : (((roundHalfEvenInt (q * 1000000)).natAbs : ℚ))
          = -((roundHalfEvenInt (q * 1000000) : ℤ) : ℚ) := by
        have h0 : roundHalfEvenInt (q * 1000000) ≤ 0 := by
          rcases hneg with h | h <;> omega
        have hz : ((roundHalfEvenInt (q * 1000000)).natAbs : ℤ)
            = -roundHalfEvenInt (q * 1000000) := by omega
        calc ((roundHalfEvenInt (q * 1000000)).natAbs : ℚ)
            = (((roundHalfEvenInt (q * 1000000)).natAbs : ℤ) : ℚ) :=
              (Int.cast_natCast _).symm
          _ = -((roundHalfEvenInt (q * 1000000) : ℤ) : ℚ) := by
              rw [hz]
              push_cast
              ring
      rw [habs]
      congr 1
      ring
    · intro c hc
      rcases List.mem_append.mp hc with hc | hc
      · rcases List.mem_append.mp hc with hc | hc
        · rcases List.mem_singleton.mp hc with rfl
          decide
        · exact pyIsSpace_of_digit (hint c hc)
      · rcases List.mem_cons.mp hc with hc | hc
        · subst hc; decide
        · exact pyIsSpace_of_digit (hfrac c hc)
  · rw [if_neg hneg]
    rw [pyStrip_eq_self]
    · show pyFloatCore (natToDecimal _ ++ '.' :: padZeros 6 (natToDecimal _)) = _
      rw [pyFloatCore_digits _ _ hint (natToDecimal_ne_nil _) hfrac]
      rw [digitsVal_natToDecimal, digitsVal_padZeros, digitsVal_natToDecimal, hflen]
      rw [hkey]
      have habs : (((roundHalfEvenInt (q * 1000000)).natAbs : ℚ))
          = ((roundHalfEvenInt (q * 1000000) : ℤ) : ℚ) := by
        have h0 : 0 ≤ roundHalfEvenInt (q * 1000000) := by
          by_contra hlt
          exact hneg (Or.inl (by omega))
        have hz : ((roundHalfEvenInt (q * 1000000)).natAbs : ℤ)
            = roundHalfEvenInt (q * 1000000) := by omega
        calc ((roundHalfEvenInt (q * 1000000)).natAbs : ℚ)
            = (((roundHalfEvenInt (q * 1000000)).natAbs : ℤ) : ℚ) :=
              (Int.cast_natCast _).symm
          _ = ((roundHalfEvenInt (q * 1000000) : ℤ) : ℚ) := by rw [hz]
      rw [habs]
    · intro c hc
      simp only [List.nil_append] at hc
      rcases List.mem_append.mp hc with hc | hc
      · exact pyIsSpace_of_digit (hint c hc)
      · rcases List.mem_cons.mp hc with hc | hc
        · subst hc; decide
        · exact pyIsSpace_of_digit (hfrac c hc)

/-- C1 counterexample: a successful pass whose persisted cursor value is
strictly smaller than the loaded cursor value.  The state file holds the
seven-fractional-digit marker `"0.0000014"`; one matching message at
`"0.00000141"` is fetched and one issue is created, so the pass persists
`f"{max:.6f}" = "0.000001"` — and `0.000001 < 0.0000014`. -/
theorem C1_counterexample :
    (run_sync ⟨"t", "C123", "me/repo", "g"⟩
        ⟨true, some "\x7b\"last_ts\": \"0.0000014\"\x7d"⟩
        [[⟨some "0.00000141", some "/codex x", some "u1", none⟩]]
        (fun _ => true)).savedState = some [("last_ts", "0.000001")] ∧
    (run_sync ⟨"t", "C123", "me/repo", "g"⟩
        ⟨true, some "\x7b\"last_ts\": \"0.0000014\"\x7d"⟩
        [[⟨some "0.00000141", some "/codex x", some "u1", none⟩]]
        (fun _ => true)).result = .ok ⟨1, 1, mkRat 141 100000000⟩ ∧
    pyFloat "0.000001" = some (mkRat 1 1000000) ∧
    pyFloat "0.0000014" = some (mkRat 14 10000000) ∧
    mkRat 1 1000000 < mkRat 14 10000000 :=
  ⟨by decide, rfl, by decide, by decide, by decide⟩

/-- C1 amended: on every successfully terminating pass whose loaded cursor
marker is a decimal with at most six fractional digits (in particular every
marker the engine itself ever persists), the persisted cursor value is ≥
the loaded cursor value; and a pass that created zero issues never writes
the cursor store and leaves the state file untouched. -/
theorem C1_amended_cursor_monotonicity (settings : Settings) (fs : FsState)
    (pages : List (List Message)) (sinkOk : ℕ → Bool)
    (kvs : List (String × PyValue)) (q : ℚ) (n : ℤ) (stats : SlackSyncStats)
    (hload : _load_state fs = .ok (.dict kvs))
    (hq : pyFloatValue ((kvs.lookup "last_ts").getD (.str "0")) = some q)
    (hdigits : q = (n : ℚ) / 1000000)
    (hok : (run_sync settings fs pages sinkOk).result = .ok stats) :
    (0 < stats.created_issues →
      (run_sync settings fs pages sinkOk).savedState
        = some [("last_ts", formatFixed6 stats.last_timestamp)] ∧
      ∃ v : ℚ, pyFloat (formatFixed6 stats.last_timestamp) = some v ∧ q ≤ v) ∧
    (stats.created_issues = 0 →
      (run_sync settings fs pages sinkOk).savedState = none ∧
      (run_sync settings fs pages sinkOk).fs = fs) := by
  rcases hfetch : _fetch_new_messages_obj pages ((kvs.lookup "last_ts").getD (.str "0"))
    with e | messages
  · simp only [run_sync, hload, hfetch] at hok
    simp at hok
  · rcases hloop : (syncLoop settings sinkOk messages ⟨0, q⟩).2 with e | acc
    · simp only [run_sync, hload, hfetch, hq, hloop] at hok
      simp at hok
    · by_cases hc : 0 < acc.created
      · simp only [run_sync, hload, hfetch, hq, hloop, if_pos hc] at hok ⊢
        simp only [Except.ok.injEq] at hok
        subst hok
        refine ⟨fun _ => ⟨rfl, ?_⟩, fun h0 => ?_⟩
        · refine ⟨_, pyFloat_formatFixed6 acc.processed_ts, ?_⟩
          have hmono : q ≤ acc.processed_ts :=
            syncLoop_ts_mono settings sinkOk messages ⟨0, q⟩ acc hloop
          have h1 : q * 1000000 ≤ acc.processed_ts * 1000000 :=
            mul_le_mul_of_nonneg_right hmono (by norm_num)
          have h2 : roundHalfEvenInt (q * 1000000)
              ≤ roundHalfEvenInt (acc.processed_ts * 1000000) :=
            roundHalfEvenInt_mono h1
          have h3 : roundHalfEvenInt (q * 1000000) = n := by
            rw [hdigits, div_mul_cancel₀ (n : ℚ) (by norm_num : (1000000 : ℚ) ≠ 0)]
            exact roundHalfEvenInt_intCast n
          rw [hdigits]
          have h4 : (n : ℚ) ≤ (roundHalfEvenInt (acc.processed_ts * 1000000) : ℚ) := by
            exact_mod_cast h3 ▸ h2
          exact (div_le_div_iff_of_pos_right (by norm_num : (0 : ℚ) < 1000000)).mpr h4
        · exact absurd h0 (Nat.pos_iff_ne_zero.mp hc)
      · simp only [run_sync, hload, hfetch, hq, hloop, if_neg hc] at hok ⊢
        simp only [Except.ok.injEq] at hok
        subst hok
        exact ⟨fun h0 => absurd h0 hc, fun _ => by simp⟩

/-- Witness for the amended C1 at a concrete pass from the zero cursor. -/
theorem C1_amended_witness :
    (run_sync ⟨"t", "C", "r", "g"⟩ ⟨true, none⟩
        [[⟨some "5.5", some "/codex hi", none, none⟩]] (fun _ => true)).savedState
      = some [("last_ts", formatFixed6 (mkRat 11 2))] ∧
    ∃ v : ℚ, pyFloat (formatFixed6 (mkRat 11 2)) = some v ∧ (0 : ℚ) ≤ v := by
  have h := C1_amended_cursor_monotonicity ⟨"t", "C", "r", "g"⟩ ⟨true, none⟩
    [[⟨some "5.5", some "/codex hi", none, none⟩]] (fun _ => true)
    [("last_ts", PyValue.str "0")] 0 0 ⟨1, 1, mkRat 11 2⟩ rfl (by decide) (by norm_num) rfl
  exact h.1 (by norm_num)

/-- Shape of the `%.6f` rendering: an optional minus sign, decimal digits,
a dot, then exactly six decimal digits. -/
lemma formatFixed6_shape (v : ℚ) :
    ∃ intDs fracDs : List Char,
      (∀ c ∈ intDs, c.isDigit = true) ∧ (∀ c ∈ fracDs, c.isDigit = true) ∧
      fracDs.length = 6 ∧
      ((formatFixed6 v).data = intDs ++ '.' :: fracDs ∨
        (formatFixed6 v).data = '-' :: (intDs ++ '.' :: fracDs)) := by
  refine ⟨natToDecimal ((roundHalfEvenInt (v * 1000000)).natAbs / 1000000),
    padZeros 6 (natToDecimal ((roundHalfEvenInt (v * 1000000)).natAbs % 1000000)),
    natToDecimal_digits _, padZeros_digits (natToDecimal_digits _), ?_, ?_⟩
  · rw [padZeros, List.length_append, List.length_replicate]
    have hlt : (roundHalfEvenInt (v * 1000000)).natAbs % 1000000 < 10 ^ 6 :=
      Nat.mod_lt _ (by norm_num)
    have := natToDecimal_length_le 6 _ hlt (by norm_num)
    omega
  · rw [formatFixed6]
    by_cases hneg : roundHalfEvenInt (v * 1000000) < 0
        ∨ (roundHalfEvenInt (v * 1000000) = 0 ∧ v < 0)
    · right
      rw [if_pos hneg]
      simp
    · left
      rw [if_neg hneg]
      simp

/-- In the binary64 embedding the running maximum always remains a binary64
value: it starts from a rounded conversion and is only ever replaced by its
maximum with another rounded conversion. -/
lemma syncLoop_b64_ts_image (settings : Settings) (sinkOk : ℕ → Bool) :
    ∀ (msgs : List Message) (acc acc' : LoopAcc),
      (∃ w, acc.processed_ts = roundToBinary64 w) →
      (syncLoop_b64 settings sinkOk msgs acc).2 = .ok acc' →
      ∃ w, acc'.processed_ts = roundToBinary64 w := by
  intro msgs
  induction msgs with
  | nil =>
    intro acc acc' hw h
    simp only [syncLoop_b64, Except.ok.injEq] at h
    rw [← h]
    exact hw
  | cons x xs ih =>
    intro acc acc' hw h
    by_cases hsub : pyTruthy x.subtype
    · simp only [syncLoop_b64, if_pos hsub] at h
      exact ih _ _ hw h
    · by_cases hcmd : ¬ pyStartswith (pyStrip (x.text.getD "")) "/codex"
      · simp only [syncLoop_b64, if_neg hsub, if_pos hcmd] at h
        exact ih _ _ hw h
      · rcases hfmt : _format_issue_b64 x settings.slack_channel_id with e | tb
        · simp only [syncLoop_b64, if_neg hsub, if_neg hcmd, hfmt] at h
          simp at h
        · by_cases hsk : sinkOk acc.created
          · rcases hts : x.ts with _ | s
            · simp only [syncLoop_b64, if_neg hsub, if_neg hcmd, hfmt, hts,
                if_pos hsk] at h
              refine ih _ _ ?_ h
              obtain ⟨w1, hw1⟩ := hw
              exact ⟨w1, by simp [max_self, hw1]⟩
            · rcases hq64 : pyFloat64 s with _ | q
              · simp only [syncLoop_b64, if_neg hsub, if_neg hcmd, hfmt, hts, hq64,
                  if_pos hsk] at h
                simp at h
              · simp only [syncLoop_b64, if_neg hsub, if_neg hcmd, hfmt, hts, hq64,
                  if_pos hsk] at h
                refine ih _ _ ?_ h
                obtain ⟨w0, hw0⟩ : ∃ w0, roundToBinary64 w0 = q := by
                  rcases hps : pyFloat s with _ | w0
                  · rw [pyFloat64, hps] at hq64
                    simp at hq64
                  · rw [pyFloat64, hps] at hq64
                    simp at hq64
                    exact ⟨w0, hq64⟩
                obtain ⟨w1, hw1⟩ := hw
                rcases le_total acc.processed_ts q with hle | hle
                · refine ⟨w0, ?_⟩
                  show max acc.processed_ts q = roundToBinary64 w0
                  rw [max_eq_right hle]
                  exact hw0.symm
                · refine ⟨w1, ?_⟩
                  show max acc.processed_ts q = roundToBinary64 w1
                  rw [max_eq_left hle]
                  exact hw1
          · simp only [syncLoop_b64, if_neg hsub, if_neg hcmd, hfmt, if_neg hsk] at h
            simp at h

/-- C9: in the binary64-faithful embedding of the pass (every `float(...)`
conversion rounds to the nearest binary64), every marker dictionary a pass
persists is `{"last_ts": f"{m:.6f}"}` for a value `m` that is itself a
binary64 value — the running maximum of binary64-rounded conversions — and
the persisted marker string consists of an optional minus sign and decimal
digits with exactly six digits after the decimal point. -/
theorem C9_persisted_marker_encoding (settings : Settings) (fs : FsState)
    (pages : List (List Message)) (sinkOk : ℕ → Bool)
    (st : List (String × String))
    (hsave : (run_sync_b64 settings fs pages sinkOk).savedState = some st) :
    ∃ v : ℚ, (∃ w : ℚ, v = roundToBinary64 w) ∧
      st = [("last_ts", formatFixed6 v)] ∧
      ∃ intDs fracDs : List Char,
        (∀ c ∈ intDs, c.isDigit = true) ∧ (∀ c ∈ fracDs, c.isDigit = true) ∧
        fracDs.length = 6 ∧
        ((formatFixed6 v).data = intDs ++ '.' :: fracDs ∨
          (formatFixed6 v).data = '-' :: (intDs ++ '.' :: fracDs)) := by
  rcases hload : _load_state fs with e | state
  · simp only [run_sync_b64, hload] at hsave
    simp at hsave
  · cases state
    case dict kvs =>
      rcases hfetch : _fetch_new_messages_b64 pages ((kvs.lookup "last_ts").getD (.str "0"))
        with e | messages
      · simp only [run_sync_b64, hload, hfetch] at hsave
        simp at hsave
      · rcases hold : pyFloatValue64 ((kvs.lookup "last_ts").getD (.str "0"))
          with _ | oldestVal
        · simp only [run_sync_b64, hload, hfetch, hold] at hsave
          simp at hsave
        · rcases hloop : (syncLoop_b64 settings sinkOk messages ⟨0, oldestVal⟩).2
            with e | acc
          · simp only [run_sync_b64, hload, hfetch, hold, hloop] at hsave
            simp at hsave
          · by_cases hc : 0 < acc.created
            · simp only [run_sync_b64, hload, hfetch, hold, hloop, if_pos hc] at hsave
              simp only [Option.some.injEq] at hsave
              subst hsave
              refine ⟨acc.processed_ts, ?_, rfl, formatFixed6_shape _⟩
              have hinit : ∃ w, ((⟨0, oldestVal⟩ : LoopAcc)).processed_ts
                  = roundToBinary64 w := by
                rcases hpv : pyFloatValue ((kvs.lookup "last_ts").getD (.str "0"))
                  with _ | w
                · rw [pyFloatValue64, hpv] at hold
                  simp at hold
                · rw [pyFloatValue64, hpv] at hold
                  simp at hold
                  exact ⟨w, hold.symm⟩
              exact syncLoop_b64_ts_image settings sinkOk messages _ acc hinit hloop
            · simp only [run_sync_b64, hload, hfetch, hold, hloop, if_neg hc] at hsave
              simp at hsave
    all_goals simp only [run_sync_b64, hload] at hsave <;> simp at hsave

set_option maxRecDepth 8000 in
/-- Witness for C9 at a concrete binary64 pass creating one issue: the
persisted marker is `"5.500000"`. -/
theorem C9_witness :
    ∃ v : ℚ, (∃ w : ℚ, v = roundToBinary64 w) ∧
      [("last_ts", "5.500000")] = [("last_ts", formatFixed6 v)] ∧
      ∃ intDs fracDs : List Char,
        (∀ c ∈ intDs, c.isDigit = true) ∧ (∀ c ∈ fracDs, c.isDigit = true) ∧
        fracDs.length = 6 ∧
        ((formatFixed6 v).data = intDs ++ '.' :: fracDs ∨
          (formatFixed6 v).data = '-' :: (intDs ++ '.' :: fracDs)) :=
  C9_persisted_marker_encoding ⟨"t", "C", "r", "g"⟩ ⟨true, none⟩
    [[⟨some "5.5", some "/codex hi", none, none⟩]] (fun _ => true)
    [("last_ts", "5.500000")] (by decide)

end ClaimTheorems

end CodexRunner
